import Mathlib

/-!
Verification of the p2p file-sharing core (src/p2p) of the RustLearning
repository against its natural-language specification.

The Rust source is shallowly embedded: peer addresses (`SocketAddr`) are
abstracted to `Nat`, `HashMap`/`HashSet` to association lists / lists in
iteration order, `Instant`/`elapsed` to an age in whole seconds, byte
buffers to `List Nat` (each element < 256), and the BLAKE3 hash to an
abstract function parameter.  File I/O is modelled as a trace of writes.
Machine integers are `Nat` with explicit `% 2 ^ 64` where overflow or
underflow matters.  Fallible paths (Rust `assert!` panics) return `Option`.
-/

namespace P2PCore

/-- file.rs: `FILE_PIECE_SIZE = 262144` (256 KiB). -/
def FILE_PIECE_SIZE : Nat := 262144

/-- file.rs: `MAX_CHUNKS_REQUESTED_AT_ONCE = 10`. -/
def MAX_CHUNKS_REQUESTED_AT_ONCE : Nat := 10

/-- file.rs: `CHUNK_REQUEST_TIMEOUT_SECONDS = 20`. -/
def CHUNK_REQUEST_TIMEOUT_SECONDS : Nat := 20

/-- node.rs: `MAX_CONNECTIONS_AT_ONCE = 5`. -/
def MAX_CONNECTIONS_AT_ONCE : Nat := 5

/-- manager.rs: `MAX_FILES_TO_SHARE_AT_ONCE = 5`. -/
def MAX_FILES_TO_SHARE_AT_ONCE : Nat := 5

/-- file.rs `FileChunk`: position, BLAKE3 hash bytes, downloaded flag. -/
structure FileChunk where
  position : Nat
  hash : List Nat
  downloaded : Bool
deriving DecidableEq, Repr

/-- file.rs `DownloadMetadata`: chunk list, whole-file hash, downloaded counter. -/
structure DownloadMetadata where
  file_chunks : List FileChunk
  file_hash : List Nat
  chunks_downloaded : Nat
deriving DecidableEq, Repr

/-- file.rs `Status` of a `SharedFile`. -/
inductive FStatus where
  | seeding
  | peering
  | idle
deriving DecidableEq, Repr

/-! ## SharedFile chunk scheduler (file.rs, `get_list_of_requested_chunks`)

The scheduler-relevant slice of the `SharedFile` struct.  `chunks_requested`
maps a chunk index to the age (seconds elapsed) of its request; peer maps
and sets are lists in hash-iteration order. -/

structure SchedulerState where
  download_metadata : Option DownloadMetadata
  peers_with_available_chunks : List (Nat × List Nat)
  chunks_requested : List (Nat × Nat)
  last_peers_asked_for_chunks : List Nat
deriving DecidableEq, Repr

/-- The request map built by the scheduler: peer to list of
(chunk index, chunk position) pairs, in insertion order. -/
abbrev ReqMap := List (Nat × List (Nat × Nat))

/-- A chunk index that is out of range of `file_chunks` panics in the source
(`download_metadata.file_chunks[*chunk_index]`); claims only exercise
in-range indices, so a default entry marked downloaded (hence never
schedulable) stands in for the panic. -/
def chunkAt (md : DownloadMetadata) (idx : Nat) : FileChunk :=
  md.file_chunks.getD idx { position := 0, hash := [], downloaded := true }

/-- The inner `for chunk_index in available_chunks` loop: pick the first
offered chunk that is neither already requested nor already downloaded. -/
def pickFirstChunk (md : DownloadMetadata) (requested : List (Nat × Nat)) :
    List Nat → Option Nat
  | [] => none
  | idx :: rest =>
    if requested.any (fun e => e.1 = idx) then pickFirstChunk md requested rest
    else if (chunkAt md idx).downloaded then pickFirstChunk md requested rest
    else some idx

/-- `request_map` insertion: append to an existing peer entry, else add a
new entry at the end. -/
def requestMapAdd (reqMap : ReqMap) (peer idx pos : Nat) : ReqMap :=
  if reqMap.any (fun e => e.1 = peer) then
    reqMap.map (fun e => if e.1 = peer then (e.1, e.2 ++ [(idx, pos)]) else e)
  else
    reqMap ++ [(peer, [(idx, pos)])]

/-- One round-robin sweep: the `for (peer, available_chunks) in
&self.peers_with_available_chunks` loop body.  Returns the remaining
budget, the updated `chunks_requested` (new requests carry age 0) and the
updated request map. -/
def sweepPeers (md : DownloadMetadata) :
    List (Nat × List Nat) → Nat → List (Nat × Nat) → ReqMap →
    Nat × List (Nat × Nat) × ReqMap
  | [], avail, requested, reqMap => (avail, requested, reqMap)
  | (peer, chunks) :: rest, avail, requested, reqMap =>
    if avail = 0 then (avail, requested, reqMap)
    else
      match pickFirstChunk md requested chunks with
      | none => sweepPeers md rest avail requested reqMap
      | some idx =>
        sweepPeers md rest (avail - 1) (requested ++ [(idx, 0)])
          (requestMapAdd reqMap peer idx (chunkAt md idx).position)

/-- Result of the scheduler's `while` loop. -/
inductive SchedLoopResult where
  | fuelOut
  | earlyNone (requested : List (Nat × Nat))
  | done (reqMap : ReqMap) (requested : List (Nat × Nat))
deriving DecidableEq, Repr

/-- The `while` loop of `get_list_of_requested_chunks`, with explicit fuel:
`fuelOut` means the loop had not exited after `fuel` iterations.  The loop
condition is re-evaluated before each sweep; after each sweep an empty
request map returns `None` early. -/
def schedLoop (md : DownloadMetadata) (peers : List (Nat × List Nat))
    (maxPossible : Nat) :
    Nat → Nat → List (Nat × Nat) → ReqMap → SchedLoopResult
  | 0, _, _, _ => .fuelOut
  | fuel + 1, avail, requested, reqMap =>
    if avail > 0 ∧ maxPossible > requested.length ∧ peers.length > 0 then
      match sweepPeers md peers avail requested reqMap with
      | (avail', requested', reqMap') =>
        if reqMap' = [] then .earlyNone requested'
        else schedLoop md peers maxPossible fuel avail' requested' reqMap'
    else .done reqMap requested

/-- The `chunks_requested.extract_if` step: keep only requests younger than
`CHUNK_REQUEST_TIMEOUT_SECONDS`. -/
def expireRequests (chunks_requested : List (Nat × Nat)) : List (Nat × Nat) :=
  chunks_requested.filter (fun e => ¬ e.2 ≥ CHUNK_REQUEST_TIMEOUT_SECONDS)

/-- The `peers_with_available_chunks.extract_if` step: drop peers whose
offered-chunk set is empty. -/
def dropEmptyPeers (peers : List (Nat × List Nat)) : List (Nat × List Nat) :=
  peers.filter (fun p => ¬ p.2.isEmpty)

/-- file.rs `SharedFile::get_list_of_requested_chunks`, fuelled.  The outer
`Option` is fuel exhaustion of the `while` loop; the inner `Option` is the
Rust return value; the second component is the mutated state. -/
def get_list_of_requested_chunks (fuel : Nat) (s : SchedulerState) :
    Option (Option ReqMap × SchedulerState) :=
  match s.download_metadata with
  | none => some (none, s)
  | some md =>
    let requested := expireRequests s.chunks_requested
    let peers := dropEmptyPeers s.peers_with_available_chunks
    let s1 : SchedulerState :=
      { s with chunks_requested := requested,
               peers_with_available_chunks := peers }
    if requested.length ≥ MAX_CHUNKS_REQUESTED_AT_ONCE then some (none, s1)
    else
      let avail := MAX_CHUNKS_REQUESTED_AT_ONCE - requested.length
      let maxPossible := md.file_chunks.length - md.chunks_downloaded
      if avail < peers.length then some (some [], s1)
      else
        match schedLoop md peers maxPossible fuel avail requested [] with
        | .fuelOut => none
        | .earlyNone requested' =>
          some (none, { s1 with chunks_requested := requested' })
        | .done reqMap requested' =>
          some (some reqMap,
            { s1 with chunks_requested := requested',
                      last_peers_asked_for_chunks := reqMap.map (·.1) })

/-- The manifest of the C1 failing input: two chunks, neither downloaded. -/
def c1md : DownloadMetadata :=
  { file_chunks :=
      [ { position := 0, hash := [], downloaded := false },
        { position := FILE_PIECE_SIZE, hash := [], downloaded := false } ],
    file_hash := [],
    chunks_downloaded := 0 }

/-- The concrete scheduler state driving C1: a manifest of two chunks, none
downloaded, nothing in flight, a single peer offering only chunk 0. -/
def c1State : SchedulerState :=
  { download_metadata := some c1md,
    peers_with_available_chunks := [(7, [0])],
    chunks_requested := [],
    last_peers_asked_for_chunks := [] }

/-! ## SharedFile chunk verification and append (file.rs, `append_chunks_to_file`)

The per-file state threaded through `append_chunks_to_file`, together with a
trace of the positioned disk writes (`seek` + `write_all` + `flush`) the
function performs.  Disk writes are assumed to succeed (the `break` on write
errors is never taken in the pure model). -/

structure AppendAcc where
  md : DownloadMetadata
  chunks_requested : List (Nat × Nat)
  peers_with_available_chunks : List (Nat × List Nat)
  file_completion : Nat
  status : FStatus
  writes : List (Nat × List Nat)
  appended : Bool
  finishedNow : Bool
deriving DecidableEq, Repr

/-- Mark chunk `idx` downloaded in the chunk list. -/
def markDownloaded (chunks : List FileChunk) (idx : Nat) : List FileChunk :=
  chunks.enum.map (fun e => if e.1 = idx then { e.2 with downloaded := true } else e.2)

/-- The body of the `for (chunk_index, chunk_data) in received_chunks` loop
of `append_chunks_to_file` for one `(index, bytes)` pair.  `hashFn` stands
for the BLAKE3 digest of a byte string.  Returns `none` on a Rust panic
(`assert_eq!(chunk_metadata.position, chunk_index * FILE_PIECE_SIZE)` and
the completion asserts), otherwise the updated state and whether the loop
`break`s (completion reached 100).  An out-of-range index
(`file_chunks.get_mut` returning `None`) and the two `continue` branches
leave the state untouched.  The source computes the completion percentage
as `(d as f64 / total as f64 * 100.0).floor()`; it is modelled as the exact
natural floor `100 * d / total` (the two agree at the 100% threshold, which
is the only value the control flow branches on). -/
def processOneChunk (hashFn : List Nat → List Nat) (total : Nat)
    (acc : AppendAcc) (idx : Nat) (data : List Nat) :
    Option (AppendAcc × Bool) :=
  match acc.md.file_chunks.get? idx with
  | none => some (acc, false)
  | some cm =>
    if cm.downloaded then some (acc, false)
    else if cm.hash ≠ hashFn data then some (acc, false)
    else if cm.position ≠ idx * FILE_PIECE_SIZE then none
    else
      let md' : DownloadMetadata :=
        { acc.md with file_chunks := markDownloaded acc.md.file_chunks idx,
                      chunks_downloaded := acc.md.chunks_downloaded + 1 }
      let acc' : AppendAcc :=
        { acc with
            md := md',
            writes := acc.writes ++ [(cm.position, data)],
            chunks_requested := acc.chunks_requested.filter (fun e => e.1 ≠ idx),
            peers_with_available_chunks :=
              acc.peers_with_available_chunks.map
                (fun p => (p.1, p.2.filter (fun i => i ≠ idx))),
            file_completion := 100 * md'.chunks_downloaded / total,
            appended := true }
      if acc'.file_completion ≥ 100 then
        if md'.chunks_downloaded = total ∧ md'.file_chunks.all (·.downloaded) then
          some ({ acc' with status := .idle, file_completion := 100,
                            finishedNow := true }, true)
        else none
      else
        some ({ acc' with status := .peering }, false)

/-- The chunk loop of `append_chunks_to_file` over the received list. -/
def appendLoop (hashFn : List Nat → List Nat) (total : Nat) :
    AppendAcc → List (Nat × List Nat) → Option AppendAcc
  | acc, [] => some acc
  | acc, (idx, data) :: rest =>
    match processOneChunk hashFn total acc idx data with
    | none => none
    | some (acc', true) => some acc'
    | some (acc', false) => appendLoop hashFn total acc' rest

/-! ## SharedFile chunk reads (file.rs, `get_file_chunks`)

The backing file is modelled as `disk : List Nat` (its bytes); `read_exact`
succeeds exactly when the requested range lies inside the file. -/

/-- The buffer length `get_file_chunks` allocates for a requested chunk:
`file_size - chunk_position` as a wrapping u64 subtraction when
`file_size < chunk_position + FILE_PIECE_SIZE`, else `FILE_PIECE_SIZE`. -/
def chunkBufLen (file_size pos : Nat) : Nat :=
  if file_size < pos + FILE_PIECE_SIZE then (file_size + 2 ^ 64 - pos) % 2 ^ 64
  else FILE_PIECE_SIZE

/-- The u64 subtraction `self.file_size - chunk_position` in
`get_file_chunks` is evaluated exactly when
`file_size < chunk_position + FILE_PIECE_SIZE`, and underflows exactly when
additionally `chunk_position > file_size`. -/
def subtractionUnderflows (file_size pos : Nat) : Prop :=
  file_size < pos + FILE_PIECE_SIZE ∧ file_size < pos

instance (file_size pos : Nat) : Decidable (subtractionUnderflows file_size pos) := by
  unfold subtractionUnderflows
  infer_instance

/-- The read loop of `get_file_chunks`: seek to each position, read the
computed buffer, `break` on a failed `read_exact`. -/
def getFileChunksLoop (disk : List Nat) (file_size : Nat) :
    List (Nat × Nat) → List (Nat × List Nat) → List (Nat × List Nat)
  | [], acc => acc
  | (idx, pos) :: rest, acc =>
    let len := chunkBufLen file_size pos
    if pos + len ≤ disk.length then
      getFileChunksLoop disk file_size rest (acc ++ [(idx, (disk.drop pos).take len)])
    else acc

/-- file.rs `SharedFile::get_file_chunks` (the status transition to Seeding
is orthogonal to the returned chunks and omitted here). -/
def get_file_chunks (disk : List Nat) (file_size : Nat)
    (requested_chunks : List (Nat × Nat)) : List (Nat × List Nat) :=
  getFileChunksLoop disk file_size requested_chunks []

/-- manager.rs, `NodeMessage::RequestFileChunks` arm of `Manager::run`: look
the file up by name and hand the peer-supplied chunk list to
`get_file_chunks` unmodified — no validation of the requested positions. -/
def manager_handle_request_file_chunks
    (files : List (List Nat × (List Nat × Nat)))
    (peer : Nat) (file_name : List Nat) (chunks : List (Nat × Nat)) :
    Option (Nat × List Nat × List (Nat × List Nat)) :=
  match files.find? (fun f => f.1 = file_name) with
  | none => none
  | some f =>
    let chunks_to_send := get_file_chunks f.2.1 f.2.2 chunks
    if chunks_to_send.isEmpty then none
    else some (peer, file_name, chunks_to_send)

/-! ## Manifest generation and installation (file.rs,
`generate_metadata_for_share` / `insert_download_metadata`) -/

/-- The hashing loop of the background task spawned by
`generate_metadata_for_share`: stream the file in `FILE_PIECE_SIZE` pieces,
emitting one `FileChunk` per piece with `downloaded: true`. -/
def genChunksGo (hashFn : List Nat → List Nat) (bytes : List Nat) (pos : Nat) :
    List FileChunk :=
  if h : bytes = [] then []
  else
    { position := pos, hash := hashFn (bytes.take FILE_PIECE_SIZE),
      downloaded := true }
      :: genChunksGo hashFn (bytes.drop FILE_PIECE_SIZE)
          (pos + (bytes.take FILE_PIECE_SIZE).length)
termination_by bytes.length
decreasing_by
  have hb : 0 < bytes.length := List.length_pos.mpr h
  simp only [List.length_drop, FILE_PIECE_SIZE]
  omega

/-- The `DownloadMetadata` value the background task of
`generate_metadata_for_share` sends in `DownloadMetadataReady`: per-chunk
hashes with every `downloaded` flag true, the whole-file hash, and
`chunks_downloaded: 0`.  `hashFn`/`fileHashFn` stand for the BLAKE3 chunk
and whole-file digests. -/
def generate_metadata_task (hashFn fileHashFn : List Nat → List Nat)
    (bytes : List Nat) : DownloadMetadata :=
  { file_chunks := genChunksGo hashFn bytes 0,
    file_hash := fileHashFn bytes,
    chunks_downloaded := 0 }

/-- The `for i in 0..download_metadata.file_chunks.len()` loop of
`insert_download_metadata`: collect the indices whose `downloaded` bit the
sender had set, and clear every flag. -/
def splitDownloadFlags : List FileChunk → Nat → List Nat × List FileChunk
  | [], _ => ([], [])
  | c :: rest, i =>
    let r := splitDownloadFlags rest (i + 1)
    ((if c.downloaded then i :: r.1 else r.1),
     { c with downloaded := false } :: r.2)

/-- The state of an empty placeholder file awaiting metadata, plus the
fields `insert_download_metadata` touches. -/
structure PlaceholderFile where
  file_size : Nat
  download_metadata : Option DownloadMetadata
  peers_with_available_chunks : List (Nat × List Nat)
deriving DecidableEq, Repr

/-- file.rs `SharedFile::insert_download_metadata` (the on-disk trailer
write is I/O and not part of the in-memory state modelled here):  requires
an empty placeholder (`assert!` on no metadata and zero size, `none` = the
panic), records the sender as holding the chunks whose `downloaded` bit was
set, clears every flag and resets `chunks_downloaded` to 0. -/
def insert_download_metadata (s : PlaceholderFile) (peer : Nat)
    (file_size : Nat) (md : DownloadMetadata) : Option PlaceholderFile :=
  if s.download_metadata.isSome then none
  else if s.file_size ≠ 0 then none
  else
    let split := splitDownloadFlags md.file_chunks 0
    some
      { file_size := file_size,
        download_metadata :=
          some { md with file_chunks := split.2, chunks_downloaded := 0 },
        peers_with_available_chunks :=
          s.peers_with_available_chunks ++ [(peer, split.1)] }

/-! ## NodeStatus peer-set operations (node.rs, `Status`)

For the disjointness claim only the two peer sets matter; they are modelled
as `Finset Nat` (addresses abstracted to `Nat`). -/

structure StatusSets where
  current_connected_peers : Finset Nat
  peers_during_handshake : Finset Nat
deriving DecidableEq

/-- node.rs `Status::peer_begins_handshake`. -/
def peer_begins_handshake (s : StatusSets) (p : Nat) : StatusSets :=
  { s with peers_during_handshake := insert p s.peers_during_handshake }

/-- node.rs `Status::peer_handshaked_successfully`: inserts into
`current_connected_peers` without touching `peers_during_handshake`. -/
def peer_handshaked_successfully (s : StatusSets) (p : Nat) : StatusSets :=
  { s with current_connected_peers := insert p s.current_connected_peers }

/-- node.rs `Status::remove_peer_from_handshake_set`. -/
def remove_peer_from_handshake_set (s : StatusSets) (p : Nat) : StatusSets :=
  { s with peers_during_handshake := s.peers_during_handshake.erase p }

/-- node.rs `Status::remove_peer`: removes from both sets. -/
def remove_peer (s : StatusSets) (p : Nat) : StatusSets :=
  { s with peers_during_handshake := s.peers_during_handshake.erase p,
           current_connected_peers := s.current_connected_peers.erase p }

/-- The operations the Connection tasks perform on `Status`.
`remove_random_peer` picks an arbitrary connected peer and calls
`remove_peer` on it; the pick is modelled by the operation's argument. -/
inductive StatusOp where
  | begins (p : Nat)
  | success (p : Nat)
  | removeFromHandshake (p : Nat)
  | remove (p : Nat)
  | removeRandom (p : Nat)
deriving DecidableEq, Repr

/-- Apply one `Status` operation. -/
def applyStatusOp (s : StatusSets) : StatusOp → StatusSets
  | .begins p => peer_begins_handshake s p
  | .success p => peer_handshaked_successfully s p
  | .removeFromHandshake p => remove_peer_from_handshake_set s p
  | .remove p => remove_peer s p
  | .removeRandom p => remove_peer s p

/-- Run a sequence of `Status` operations. -/
def runStatusOps (s : StatusSets) : List StatusOp → StatusSets
  | [] => s
  | op :: rest => runStatusOps (applyStatusOp s op) rest

/-- The freshly created `Status` (node.rs `Status::create`): both sets empty. -/
def initialStatus : StatusSets :=
  { current_connected_peers := ∅, peers_during_handshake := ∅ }

/-- The invariant claimed by the specification: no address is in
`current_connected_peers` and in `peers_during_handshake` at once. -/
def statusDisjoint (s : StatusSets) : Prop :=
  s.current_connected_peers ∩ s.peers_during_handshake = ∅

instance (s : StatusSets) : Decidable (statusDisjoint s) := by
  unfold statusDisjoint
  infer_instance

/-! ## Potential-peer pump (node.rs, `Status::get_potential_peers` and the
head of each `Node::run` loop turn)

`current_connected_peers` is here the key list of the `HashMap` and
`potential_peers` the `HashSet` in iteration order. -/

structure PeerPumpState where
  current_connected_peers : List Nat
  potential_peers : List Nat
deriving DecidableEq, Repr

/-- The `for peer in self.potential_peers.drain()` loop: stop once the
connection count reaches `MAX_CONNECTIONS_AT_ONCE`, collect peers that are
not already connected.  (The element extracted on the breaking iteration
is discarded, and `HashSet::drain` clears the rest on drop.) -/
def drainSelect (connected : List Nat) :
    List Nat → Nat → List Nat
  | [], _ => []
  | peer :: rest, count =>
    if count ≥ MAX_CONNECTIONS_AT_ONCE then []
    else if ¬ connected.contains peer then
      peer :: drainSelect connected rest (count + 1)
    else drainSelect connected rest count

/-- node.rs `Status::get_potential_peers`: returns the selected peers and
the mutated state.  The two early returns leave `potential_peers` intact;
the drain path leaves it empty. -/
def get_potential_peers (s : PeerPumpState) : List Nat × PeerPumpState :=
  if s.potential_peers.isEmpty then ([], s)
  else if s.current_connected_peers.length ≥ MAX_CONNECTIONS_AT_ONCE then ([], s)
  else
    (drainSelect s.current_connected_peers s.potential_peers
       s.current_connected_peers.length,
     { s with potential_peers := [] })

/-- One outbound connect attempt issued by the Node loop. -/
structure ConnectAttempt where
  peer : Nat
  ask_for_peers : Bool
  make_room_for_new_connection : Bool
deriving DecidableEq, Repr

/-- The head of each `Node::run` loop turn (node.rs lines 218-227): take
`get_potential_peers`, and for each returned peer not already connected
call `connect_to(peer, .., ask_for_peers: false,
make_room_for_new_connection: false)`. -/
def nodeLoopTurnConnects (s : PeerPumpState) :
    List ConnectAttempt × PeerPumpState :=
  let r := get_potential_peers s
  (r.1.filterMap
     (fun p =>
       if ¬ r.2.current_connected_peers.contains p then
         some { peer := p, ask_for_peers := false,
                make_room_for_new_connection := false }
       else none),
   r.2)

/-! ## Handshake admission (connection.rs, `Connection::perform_handshake`,
the `Ok(NetworkMessage::Hello(..))` arm)

`wire_sent` records only the messages whose `send_message` future is
actually awaited: on the rejection branch the source drops the future
(`let _ = Self::send_message(connection,
NetworkMessage::ConnectionRejected(..));` with no `.await`), so that branch
contributes nothing to the wire. -/

/-- The handshake wire replies. -/
inductive HsReply where
  | connectionAccepted (peers : List Nat)
  | connectionRejected (peers : List Nat)
deriving DecidableEq, Repr

/-- The `Status` slice the admission decision reads and writes:
the connected map's key list in iteration order. -/
structure AdmissionStatus where
  current_connected_peers : List Nat
deriving DecidableEq, Repr

/-- Outcome of the admission step: whether the connection was accepted, the
wire messages actually sent, and the resulting connected set. -/
structure AdmissionOutcome where
  accepted : Bool
  wire_sent : List HsReply
  status : AdmissionStatus
deriving DecidableEq, Repr

/-- connection.rs lines 120-160: the admission decision and reply after the
peer's Hello (with `remote` already rewritten to the peer's listening
address).  `ask_for_peers` is the flag from the peer's Hello;
`make_room_for_new_connection` is the local flag.  `remove_random_peer`
evicts the first peer in iteration order. -/
def handshakeAdmission (st : AdmissionStatus) (remote : Nat)
    (ask_for_peers : Bool) (make_room_for_new_connection : Bool) :
    AdmissionOutcome :=
  let connected_peers_at_hello :=
    if ask_for_peers then st.current_connected_peers else []
  if st.current_connected_peers.contains remote then
    { accepted := false, wire_sent := [], status := st }
  else if st.current_connected_peers.length ≥ MAX_CONNECTIONS_AT_ONCE then
    if make_room_for_new_connection then
      let st' : AdmissionStatus :=
        { current_connected_peers := st.current_connected_peers.drop 1 }
      { accepted := true,
        wire_sent := [.connectionAccepted connected_peers_at_hello],
        status :=
          { current_connected_peers :=
              st'.current_connected_peers ++ [remote] } }
    else
      { accepted := false, wire_sent := [], status := st }
  else
    { accepted := true,
      wire_sent := [.connectionAccepted connected_peers_at_hello],
      status :=
        { current_connected_peers := st.current_connected_peers ++ [remote] } }

/-! ## Storage manager directory scan (manager.rs, `Manager::check_directory`)

A `SharedFile` is reduced to the fields the scan touches: whether its
backing file still exists, and the seconds since its last status change
(`update_status_if_needed`).  Directory entries carry name, kind and size. -/

/-- file.rs: `IDLE_TIME_UNTIL_STATUS_CHANGE_SECONDS = 15`. -/
def IDLE_TIME_UNTIL_STATUS_CHANGE_SECONDS : Nat := 15

structure ScanFile where
  file_exists : Bool
  status_elapsed : Nat
  status : FStatus
deriving DecidableEq, Repr

/-- file.rs `SharedFile::update_status_if_needed`. -/
def update_status_if_needed (f : ScanFile) : ScanFile × Bool :=
  if f.status_elapsed ≥ IDLE_TIME_UNTIL_STATUS_CHANGE_SECONDS then
    ({ f with status := .idle }, true)
  else (f, false)

structure DirEntry where
  name : String
  is_file : Bool
  size : Nat
deriving DecidableEq, Repr

/-- manager.rs: the `unfinished` extension (with the dot as stripped by
`check_directory`). -/
def UNFINISHED_SUFFIX : String := "unfinished"

/-- The directory scan loop of `check_directory`: ignore non-files, strip
the `.unfinished` extension, ignore empty finished files, and register
unknown names while below `MAX_FILES_TO_SHARE_AT_ONCE`.  A fresh
`ScanFile` stands for `SharedFile::create_from_existing_file`. -/
def scanEntries (files : List (String × ScanFile)) :
    List DirEntry → List (String × ScanFile)
  | [] => files
  | e :: rest =>
    if ¬ e.is_file then scanEntries files rest
    else
      let unfinished := e.name.endsWith UNFINISHED_SUFFIX
      let base_name :=
        if unfinished then
          (e.name.toList.take
            (e.name.length - UNFINISHED_SUFFIX.length - 1)).asString
        else e.name
      if ¬ unfinished ∧ e.size = 0 then scanEntries files rest
      else if files.any (fun f => f.1 = base_name) then scanEntries files rest
      else if files.length < MAX_FILES_TO_SHARE_AT_ONCE then
        scanEntries
          (files ++
            [(base_name,
              { file_exists := true, status_elapsed := 0, status := .idle })])
          rest
      else scanEntries files rest

/-- manager.rs `Manager::check_directory` as a function of the current
`files` map and the directory listing.  Returns the new `files` map and
whether the `StorageMessage::AskForFiles` command was sent to the Node this
run. -/
def check_directory (files : List (String × ScanFile))
    (entries : List DirEntry) : List (String × ScanFile) × Bool :=
  let files1 := files.filter (fun f => f.2.file_exists)
  let files2 := scanEntries files1 entries
  let asked := files2.length < MAX_FILES_TO_SHARE_AT_ONCE
  (files2.map (fun f => (f.1, (update_status_if_needed f.2).1)), asked)

/-! ## Wire codec (message.rs `NetworkMessage`, connection.rs
`read_message` / `send_message`)

The messages are bincode-encoded with `bincode::config::standard()`
(little-endian, variable-width integer encoding) and framed by a 4-byte
big-endian length prefix.  The codec below is modelled from the bincode 2
specification for exactly the types `NetworkMessage` is built from:
unsigned integers as varint (single byte below 251, else a marker byte 251 /
252 / 253 followed by 2 / 4 / 8 little-endian bytes), `bool` as one byte,
`[u8; 32]` as raw bytes, enum variants tagged by their u32 index,
`Vec` / `HashSet` / `String` as a varint length followed by the elements
(a Rust `String` appears here as its UTF-8 byte list), `Option` as a
one-byte tag, tuples as the components in order, and `SocketAddr` as a
V4/V6 variant tag, the raw IP octets and the varint port. -/

/-- Little-endian encoding of `n` on `k` bytes. -/
def leBytes : Nat → Nat → List Nat
  | 0, _ => []
  | k + 1, n => n % 256 :: leBytes k (n / 256)

/-- Read `k` little-endian bytes. -/
def leRead : Nat → List Nat → Option (Nat × List Nat)
  | 0, bs => some (0, bs)
  | _ + 1, [] => none
  | k + 1, b :: bs =>
    match leRead k bs with
    | none => none
    | some (n, rest) => some (b + 256 * n, rest)

/-- bincode standard-configuration varint encoding of an unsigned integer
(u64 and below; the source types never need the u128 marker 254). -/
def encVarint (n : Nat) : List Nat :=
  if n < 251 then [n]
  else if n < 2 ^ 16 then 251 :: leBytes 2 n
  else if n < 2 ^ 32 then 252 :: leBytes 4 n
  else 253 :: leBytes 8 n

/-- bincode varint decoding. -/
def decVarint : List Nat → Option (Nat × List Nat)
  | [] => none
  | b :: bs =>
    if b < 251 then some (b, bs)
    else if b = 251 then leRead 2 bs
    else if b = 252 then leRead 4 bs
    else if b = 253 then leRead 8 bs
    else none

/-- bincode `bool` encoding. -/
def encBool : Bool → List Nat
  | false => [0]
  | true => [1]

/-- bincode `bool` decoding (only 0 and 1 are valid). -/
def decBool : List Nat → Option (Bool × List Nat)
  | 0 :: bs => some (false, bs)
  | 1 :: bs => some (true, bs)
  | _ => none

/-- bincode `Vec<u8>` / `String` body: varint length then the raw bytes. -/
def encBytes (bs : List Nat) : List Nat :=
  encVarint bs.length ++ bs

/-- Decode a length-prefixed byte string. -/
def decBytes (l : List Nat) : Option (List Nat × List Nat) :=
  match decVarint l with
  | none => none
  | some (n, rest) =>
    if n ≤ rest.length then some (rest.take n, rest.drop n) else none

/-- Concatenated encodings of a sequence of elements. -/
def encSeq (enc : α → List Nat) : List α → List Nat
  | [] => []
  | x :: xs => enc x ++ encSeq enc xs

/-- Decode `n` consecutive elements. -/
def decCount (dec : List Nat → Option (α × List Nat)) :
    Nat → List Nat → Option (List α × List Nat)
  | 0, l => some ([], l)
  | n + 1, l =>
    match dec l with
    | none => none
    | some (x, rest) =>
      match decCount dec n rest with
      | none => none
      | some (xs, rest2) => some (x :: xs, rest2)

/-- bincode collection encoding: varint length then the elements (for
`HashSet` the element order is the set's iteration order, a list here). -/
def encListWith (enc : α → List Nat) (xs : List α) : List Nat :=
  encVarint xs.length ++ encSeq enc xs

/-- bincode collection decoding. -/
def decListWith (dec : List Nat → Option (α × List Nat)) (l : List Nat) :
    Option (List α × List Nat) :=
  match decVarint l with
  | none => none
  | some (n, rest) => decCount dec n rest

/-- bincode `Option` encoding: a one-byte tag then the payload. -/
def encOptionWith (enc : α → List Nat) : Option α → List Nat
  | none => [0]
  | some x => 1 :: enc x

/-- bincode `Option` decoding. -/
def decOptionWith (dec : List Nat → Option (α × List Nat)) :
    List Nat → Option (Option α × List Nat)
  | 0 :: bs => some (none, bs)
  | 1 :: bs =>
    match dec bs with
    | none => none
    | some (x, rest) => some (some x, rest)
  | _ => none

/-- A `std::net::IpAddr`: 4 or 16 raw octets. -/
inductive IpAddrM where
  | v4 (a b c d : Nat)
  | v6 (octets : List Nat)
deriving DecidableEq, Repr

/-- A `std::net::SocketAddr`: IP plus port. -/
structure SockAddrM where
  ip : IpAddrM
  port : Nat
deriving DecidableEq, Repr

/-- bincode `SocketAddr` encoding: V4/V6 variant tag (u32), raw octets,
varint u16 port. -/
def encSockAddr (a : SockAddrM) : List Nat :=
  match a.ip with
  | .v4 x y z w => encVarint 0 ++ [x, y, z, w] ++ encVarint a.port
  | .v6 oct => encVarint 1 ++ oct ++ encVarint a.port

/-- bincode `SocketAddr` decoding. -/
def decSockAddr (l : List Nat) : Option (SockAddrM × List Nat) :=
  match decVarint l with
  | some (0, rest) =>
    match rest with
    | x :: y :: z :: w :: rest2 =>
      match decVarint rest2 with
      | some (p, rest3) => some ({ ip := .v4 x y z w, port := p }, rest3)
      | none => none
    | _ => none
  | some (1, rest) =>
    if 16 ≤ rest.length then
      match decVarint (rest.drop 16) with
      | some (p, rest3) => some ({ ip := .v6 (rest.take 16), port := p }, rest3)
      | none => none
    else none
  | _ => none

/-- bincode `FileChunk` encoding: u64 position, raw 32-byte hash, bool. -/
def encFileChunk (c : FileChunk) : List Nat :=
  encVarint c.position ++ c.hash ++ encBool c.downloaded

/-- bincode `FileChunk` decoding. -/
def decFileChunk (l : List Nat) : Option (FileChunk × List Nat) :=
  match decVarint l with
  | none => none
  | some (pos, rest) =>
    if 32 ≤ rest.length then
      match decBool (rest.drop 32) with
      | none => none
      | some (d, rest2) =>
        some ({ position := pos, hash := rest.take 32, downloaded := d }, rest2)
    else none

/-- bincode `DownloadMetadata` encoding: chunk vector, raw 32-byte file
hash, usize counter. -/
def encMetadata (m : DownloadMetadata) : List Nat :=
  encListWith encFileChunk m.file_chunks ++ m.file_hash
    ++ encVarint m.chunks_downloaded

/-- bincode `DownloadMetadata` decoding. -/
def decMetadata (l : List Nat) : Option (DownloadMetadata × List Nat) :=
  match decListWith decFileChunk l with
  | none => none
  | some (chunks, rest) =>
    if 32 ≤ rest.length then
      match decVarint (rest.drop 32) with
      | none => none
      | some (n, rest2) =>
        some ({ file_chunks := chunks, file_hash := rest.take 32,
                chunks_downloaded := n }, rest2)
    else none

/-- A `(usize, u64)` chunk request pair. -/
def encIdxPos (p : Nat × Nat) : List Nat :=
  encVarint p.1 ++ encVarint p.2

/-- Decode a `(usize, u64)` pair. -/
def decIdxPos (l : List Nat) : Option ((Nat × Nat) × List Nat) :=
  match decVarint l with
  | none => none
  | some (i, rest) =>
    match decVarint rest with
    | none => none
    | some (p, rest2) => some ((i, p), rest2)

/-- A `(usize, Vec<u8>)` chunk data pair. -/
def encIdxBytes (p : Nat × List Nat) : List Nat :=
  encVarint p.1 ++ encBytes p.2

/-- Decode a `(usize, Vec<u8>)` pair. -/
def decIdxBytes (l : List Nat) : Option ((Nat × List Nat) × List Nat) :=
  match decVarint l with
  | none => none
  | some (i, rest) =>
    match decBytes rest with
    | none => none
    | some (bs, rest2) => some ((i, bs), rest2)

/-- message.rs `NetworkMessage` (file names as UTF-8 byte lists, peer-set
fields as lists in iteration order). -/
inductive NetMsg where
  | hello (addr : SockAddrM) (ask_for_peers : Bool)
  | connectionAccepted (peers : List SockAddrM)
  | connectionRejected (peers : List SockAddrM)
  | newPeer (p : SockAddrM) (tried informed : List SockAddrM)
  | imAlive
  | listPeers (peers : List SockAddrM)
  | listFiles (sender : SockAddrM) (files : Option (List (List Nat)))
  | askForFile (name : List Nat) (peer : SockAddrM)
  | sendMetadata (name : List Nat) (peer : SockAddrM) (size : Nat)
      (md : DownloadMetadata)
  | requestFileChunks (peer : SockAddrM) (name : List Nat)
      (chunks : List (Nat × Nat))
  | sendFileChunks (name : List Nat) (chunks : List (Nat × List Nat))
deriving DecidableEq, Repr

/-- bincode encoding of a `NetworkMessage`: u32 variant index then the
fields in order. -/
def encNetMsg : NetMsg → List Nat
  | .hello a ask => encVarint 0 ++ encSockAddr a ++ encBool ask
  | .connectionAccepted ps => encVarint 1 ++ encListWith encSockAddr ps
  | .connectionRejected ps => encVarint 2 ++ encListWith encSockAddr ps
  | .newPeer p tried informed =>
    encVarint 3 ++ encSockAddr p ++ encListWith encSockAddr tried
      ++ encListWith encSockAddr informed
  | .imAlive => encVarint 4
  | .listPeers ps => encVarint 5 ++ encListWith encSockAddr ps
  | .listFiles sender files =>
    encVarint 6 ++ encSockAddr sender
      ++ encOptionWith (encListWith encBytes) files
  | .askForFile name peer => encVarint 7 ++ encBytes name ++ encSockAddr peer
  | .sendMetadata name peer size md =>
    encVarint 8 ++ encBytes name ++ encSockAddr peer ++ encVarint size
      ++ encMetadata md
  | .requestFileChunks peer name chunks =>
    encVarint 9 ++ encSockAddr peer ++ encBytes name
      ++ encListWith encIdxPos chunks
  | .sendFileChunks name chunks =>
    encVarint 10 ++ encBytes name ++ encListWith encIdxBytes chunks

/-- bincode decoding of a `NetworkMessage`. -/
def decNetMsg (l : List Nat) : Option (NetMsg × List Nat) :=
  match decVarint l with
  | none => none
  | some (tag, rest) =>
    if tag = 0 then
      match decSockAddr rest with
      | none => none
      | some (a, r1) =>
        match decBool r1 with
        | none => none
        | some (b, r2) => some (NetMsg.hello a b, r2)
    else if tag = 1 then
      match decListWith decSockAddr rest with
      | none => none
      | some (ps, r1) => some (NetMsg.connectionAccepted ps, r1)
    else if tag = 2 then
      match decListWith decSockAddr rest with
      | none => none
      | some (ps, r1) => some (NetMsg.connectionRejected ps, r1)
    else if tag = 3 then
      match decSockAddr rest with
      | none => none
      | some (p, r1) =>
        match decListWith decSockAddr r1 with
        | none => none
        | some (tried, r2) =>
          match decListWith decSockAddr r2 with
          | none => none
          | some (informed, r3) => some (NetMsg.newPeer p tried informed, r3)
    else if tag = 4 then some (.imAlive, rest)
    else if tag = 5 then
      match decListWith decSockAddr rest with
      | none => none
      | some (ps, r1) => some (NetMsg.listPeers ps, r1)
    else if tag = 6 then
      match decSockAddr rest with
      | none => none
      | some (a, r1) =>
        match decOptionWith (decListWith decBytes) r1 with
        | none => none
        | some (files, r2) => some (NetMsg.listFiles a files, r2)
    else if tag = 7 then
      match decBytes rest with
      | none => none
      | some (name, r1) =>
        match decSockAddr r1 with
        | none => none
        | some (p, r2) => some (NetMsg.askForFile name p, r2)
    else if tag = 8 then
      match decBytes rest with
      | none => none
      | some (name, r1) =>
        match decSockAddr r1 with
        | none => none
        | some (p, r2) =>
          match decVarint r2 with
          | none => none
          | some (size, r3) =>
            match decMetadata r3 with
            | none => none
            | some (md, r4) => some (NetMsg.sendMetadata name p size md, r4)
    else if tag = 9 then
      match decSockAddr rest with
      | none => none
      | some (p, r1) =>
        match decBytes r1 with
        | none => none
        | some (name, r2) =>
          match decListWith decIdxPos r2 with
          | none => none
          | some (chunks, r3) => some (NetMsg.requestFileChunks p name chunks, r3)
    else if tag = 10 then
      match decBytes rest with
      | none => none
      | some (name, r1) =>
        match decListWith decIdxBytes r1 with
        | none => none
        | some (chunks, r2) => some (NetMsg.sendFileChunks name chunks, r2)
    else none

/-! Well-formedness: the value ranges the Rust types guarantee. -/

/-- IP octet lists have the right shape. -/
def wfIp : IpAddrM → Prop
  | .v4 a b c d => a < 256 ∧ b < 256 ∧ c < 256 ∧ d < 256
  | .v6 oct => oct.length = 16

/-- A socket address: well-formed IP, u16 port. -/
def wfSock (a : SockAddrM) : Prop :=
  wfIp a.ip ∧ a.port < 2 ^ 16

/-- A chunk: u64 position, 32-byte hash. -/
def wfChunk (c : FileChunk) : Prop :=
  c.position < 2 ^ 64 ∧ c.hash.length = 32

/-- A manifest: usize-counted chunk vector, 32-byte file hash. -/
def wfMetadata (m : DownloadMetadata) : Prop :=
  m.file_chunks.length < 2 ^ 64 ∧ (∀ c ∈ m.file_chunks, wfChunk c)
    ∧ m.file_hash.length = 32 ∧ m.chunks_downloaded < 2 ^ 64

/-- A byte string (file name or chunk payload): usize length. -/
def wfBytes (bs : List Nat) : Prop :=
  bs.length < 2 ^ 64

/-- Well-formedness of a `NetworkMessage` value: every component is in the
range its Rust type guarantees. -/
def wfMsg : NetMsg → Prop
  | .hello a _ => wfSock a
  | .connectionAccepted ps => ps.length < 2 ^ 64 ∧ ∀ p ∈ ps, wfSock p
  | .connectionRejected ps => ps.length < 2 ^ 64 ∧ ∀ p ∈ ps, wfSock p
  | .newPeer p tried informed =>
    wfSock p ∧ (tried.length < 2 ^ 64 ∧ ∀ q ∈ tried, wfSock q)
      ∧ (informed.length < 2 ^ 64 ∧ ∀ q ∈ informed, wfSock q)
  | .imAlive => True
  | .listPeers ps => ps.length < 2 ^ 64 ∧ ∀ p ∈ ps, wfSock p
  | .listFiles sender files =>
    wfSock sender ∧
      (∀ fs ∈ files, fs.length < 2 ^ 64 ∧ ∀ f ∈ fs, wfBytes f)
  | .askForFile name peer => wfBytes name ∧ wfSock peer
  | .sendMetadata name peer size md =>
    wfBytes name ∧ wfSock peer ∧ size < 2 ^ 64 ∧ wfMetadata md
  | .requestFileChunks peer name chunks =>
    wfSock peer ∧ wfBytes name ∧ chunks.length < 2 ^ 64
      ∧ ∀ c ∈ chunks, c.1 < 2 ^ 64 ∧ c.2 < 2 ^ 64
  | .sendFileChunks name chunks =>
    wfBytes name ∧ chunks.length < 2 ^ 64
      ∧ ∀ c ∈ chunks, c.1 < 2 ^ 64 ∧ wfBytes c.2

/-- The 4-byte big-endian length prefix written by `send_message`. -/
def be32 (n : Nat) : List Nat :=
  [n / 2 ^ 24 % 256, n / 2 ^ 16 % 256, n / 2 ^ 8 % 256, n % 256]

/-- connection.rs `Connection::send_message`: the bytes written to the
socket — the encoded length cast to u32 (`encoded_message.len() as u32`,
which truncates modulo `2 ^ 32`) in big-endian, then the encoding. -/
def send_message (m : NetMsg) : List Nat :=
  be32 ((encNetMsg m).length % 2 ^ 32) ++ encNetMsg m

/-- connection.rs `Connection::read_message`: read the 4-byte big-endian
length, read exactly that many bytes, bincode-decode them (the decoded
byte count is ignored).  Returns the message and the unread remainder of
the stream. -/
def read_message (stream : List Nat) : Option (NetMsg × List Nat) :=
  match stream with
  | b0 :: b1 :: b2 :: b3 :: rest =>
    let msg_len := ((b0 * 256 + b1) * 256 + b2) * 256 + b3
    if msg_len ≤ rest.length then
      match decNetMsg (rest.take msg_len) with
      | some r => some (r.1, rest.drop msg_len)
      | none => none
    else none
  | _ => none

/-- The header bytes of the C7 counterexample message's encoding. -/
def c7hdr : List Nat :=
  [10, 0, 1, 0, 253, 0, 0, 0, 0, 1, 0, 0, 0]

/-- The C7 counterexample: a `SendFileChunks` whose single chunk holds
`2 ^ 32` bytes, so the whole encoding is 13 + 2 ^ 32 bytes long and the
u32 length cast truncates the frame header to 13. -/
def msgC7 : NetMsg :=
  .sendFileChunks [] [(0, List.replicate (2 ^ 32) 0)]

/-! ## Concrete inputs used by witnesses and counterexamples -/

/-- A one-chunk manifest (witness input). -/
def c6md : DownloadMetadata :=
  { file_chunks := [{ position := 0, hash := [], downloaded := false }],
    file_hash := [], chunks_downloaded := 0 }

/-- Witness input: ten fresh in-flight requests — the budget is full. -/
def c6StateA : SchedulerState :=
  { download_metadata := some c6md,
    peers_with_available_chunks := [(1, [0])],
    chunks_requested :=
      [(0, 0), (1, 0), (2, 0), (3, 0), (4, 0), (5, 0), (6, 0), (7, 0),
       (8, 0), (9, 0)],
    last_peers_asked_for_chunks := [] }

/-- Witness input: nine fresh in-flight requests and two offering peers —
the remaining budget (one) is smaller than the peer count. -/
def c6StateB : SchedulerState :=
  { download_metadata := some c6md,
    peers_with_available_chunks := [(1, [0]), (2, [0])],
    chunks_requested :=
      [(0, 0), (1, 0), (2, 0), (3, 0), (4, 0), (5, 0), (6, 0), (7, 0),
       (8, 0)],
    last_peers_asked_for_chunks := [] }

/-! # Theorems -/

/-- C1: the claim says `get_list_of_requested_chunks` always terminates,
stopping as soon as the budget is exhausted or a full round-robin sweep
schedules no new chunk.  The code does not: on `c1State` (a manifest with
two chunks, none downloaded, nothing in flight, one peer offering only
chunk 0) the first sweep schedules chunk 0, and every later sweep schedules
nothing — but the `request_map.is_empty()` check never fires because the
map is already non-empty, and the `while` condition stays true, so the loop
never exits, whatever the fuel. -/
theorem c1_scheduler_nontermination (fuel : Nat) :
    get_list_of_requested_chunks fuel c1State = none := by
  have step0 : ∀ n, schedLoop c1md [(7, [0])] 2 (n + 1) 10 [] [] =
      schedLoop c1md [(7, [0])] 2 n 9 [(0, 0)] [(7, [(0, 0)])] :=
    fun _ => rfl
  have step : ∀ n, schedLoop c1md [(7, [0])] 2 (n + 1) 9 [(0, 0)] [(7, [(0, 0)])] =
      schedLoop c1md [(7, [0])] 2 n 9 [(0, 0)] [(7, [(0, 0)])] :=
    fun _ => rfl
  have stuck : ∀ n, schedLoop c1md [(7, [0])] 2 n 9 [(0, 0)] [(7, [(0, 0)])] =
      .fuelOut := by
    intro n
    induction n with
    | zero => rfl
    | succ k ih => rw [step k, ih]
  have reduce : ∀ n, get_list_of_requested_chunks n c1State =
      (match schedLoop c1md [(7, [0])] 2 n 10 [] [] with
       | .fuelOut => none
       | .earlyNone requested' =>
         some (none, { c1State with chunks_requested := requested' })
       | .done reqMap requested' =>
         some (some reqMap,
           { c1State with
               chunks_requested := requested',
               last_peers_asked_for_chunks := reqMap.map (·.1) })) :=
    fun _ => rfl
  cases fuel with
  | zero => rfl
  | succ n =>
    rw [reduce, step0, stuck]

/-- Witness for C1: the loop is still running after three iterations on
the failing input. -/
theorem c1_scheduler_nontermination_witness :
    get_list_of_requested_chunks 3 c1State = none :=
  c1_scheduler_nontermination 3

/-- C6: with a manifest present, `get_list_of_requested_chunks` — after
expiring in-flight requests at least 20 s old and dropping peers with an
empty offered-chunk set — returns `None` when the in-flight count has
reached `MAX_CHUNKS_REQUESTED_AT_ONCE = 10`, and returns an empty request
map, scheduling nothing and changing no further state, when the remaining
budget is smaller than the number of peers with available chunks. -/
theorem c6_budget_guards (fuel : Nat) (s : SchedulerState)
    (md : DownloadMetadata) (hmd : s.download_metadata = some md) :
    (MAX_CHUNKS_REQUESTED_AT_ONCE ≤ (expireRequests s.chunks_requested).length →
      get_list_of_requested_chunks fuel s =
        some (none,
          { s with
              chunks_requested := expireRequests s.chunks_requested,
              peers_with_available_chunks :=
                dropEmptyPeers s.peers_with_available_chunks })) ∧
    ((expireRequests s.chunks_requested).length < MAX_CHUNKS_REQUESTED_AT_ONCE →
      MAX_CHUNKS_REQUESTED_AT_ONCE - (expireRequests s.chunks_requested).length <
        (dropEmptyPeers s.peers_with_available_chunks).length →
      get_list_of_requested_chunks fuel s =
        some (some [],
          { s with
              chunks_requested := expireRequests s.chunks_requested,
              peers_with_available_chunks :=
                dropEmptyPeers s.peers_with_available_chunks })) := by
  constructor
  · intro hge
    unfold get_list_of_requested_chunks
    rw [hmd]
    dsimp only
    rw [if_pos hge]
  · intro hlt hbud
    unfold get_list_of_requested_chunks
    rw [hmd]
    dsimp only
    rw [if_neg (Nat.not_le.mpr hlt), if_pos hbud]

/-- Witness for C6: the two guards fire on concrete states — ten fresh
in-flight requests yield `None`; nine in-flight and two peers yield the
empty map. -/
theorem c6_budget_guards_witness :
    get_list_of_requested_chunks 1 c6StateA = some (none, c6StateA) ∧
    get_list_of_requested_chunks 1 c6StateB = some (some [], c6StateB) :=
  ⟨(c6_budget_guards 1 c6StateA c6md rfl).1 (by decide),
   (c6_budget_guards 1 c6StateB c6md rfl).2 (by decide) (by decide)⟩

/-- The drain loop collects at most the connection budget. -/
theorem drainSelect_length_le (connected : List Nat) (l : List Nat) (count : Nat) :
    (drainSelect connected l count).length ≤ MAX_CONNECTIONS_AT_ONCE - count := by
  induction l generalizing count with
  | nil =>
    simp only [drainSelect, List.length_nil]
    exact Nat.zero_le _
  | cons peer rest ih =>
    by_cases h1 : count ≥ MAX_CONNECTIONS_AT_ONCE
    · simp only [drainSelect, if_pos h1, List.length_nil]
      exact Nat.zero_le _
    · by_cases h2 : (¬ connected.contains peer = true)
      · simp only [drainSelect, if_neg h1, if_pos h2, List.length_cons]
        have h4 := ih (count + 1)
        simp only [MAX_CONNECTIONS_AT_ONCE] at h1 h4 ⊢
        omega
      · simp only [drainSelect, if_neg h1, if_neg h2]
        exact ih count

/-- The drain loop only returns peers that were in the set and are not
connected. -/
theorem drainSelect_mem (connected : List Nat) (l : List Nat) (count : Nat) :
    ∀ p ∈ drainSelect connected l count, p ∈ l ∧ p ∉ connected := by
  induction l generalizing count with
  | nil => simp [drainSelect]
  | cons peer rest ih =>
    by_cases h1 : count ≥ MAX_CONNECTIONS_AT_ONCE
    · simp [drainSelect, if_pos h1]
    · by_cases h2 : (¬ connected.contains peer = true)
      · simp only [drainSelect, if_neg h1, if_pos h2]
        intro p hp
        rcases List.mem_cons.mp hp with rfl | hp'
        · refine ⟨List.mem_cons_self _ _, ?_⟩
          intro hmem
          exact h2 (List.elem_eq_true_of_mem hmem)
        · rcases ih (count + 1) p hp' with ⟨h4, h5⟩
          exact ⟨List.mem_cons_of_mem _ h4, h5⟩
      · simp only [drainSelect, if_neg h1, if_neg h2]
        intro p hp
        rcases ih count p hp with ⟨h4, h5⟩
        exact ⟨List.mem_cons_of_mem _ h4, h5⟩

/-- C3, counterexample: with no connections and six distinct potential
peers, the loop turn attempts only five outbound connects, but the sixth
peer does not remain in `potential_peers`: `HashSet::drain` leaves the set
empty, so the beyond-budget peer is discarded, not kept for a later turn. -/
theorem c3_drain_counterexample :
    get_potential_peers
        { current_connected_peers := [], potential_peers := [0, 1, 2, 3, 4, 5] } =
      ([0, 1, 2, 3, 4],
        { current_connected_peers := [], potential_peers := [] }) ∧
    (5 : Nat) ∈
      (PeerPumpState.mk [] [0, 1, 2, 3, 4, 5]).potential_peers ∧
    (5 : Nat) ∉
      (get_potential_peers
        { current_connected_peers := [], potential_peers := [0, 1, 2, 3, 4, 5] }).2.potential_peers := by
  decide

/-- C3, amended: each loop turn attempts at most
`MAX_CONNECTIONS_AT_ONCE - current` outbound connects, every attempted peer
comes from `potential_peers` and is not yet connected, and every attempt
carries `ask_for_peers = false` and `make_room_for_new_connection = false`;
but `potential_peers` is either left untouched (the early returns, which
select nothing) or drained empty — peers beyond the budget are discarded. -/
theorem c3_peer_pump (s : PeerPumpState) :
    (get_potential_peers s).1.length ≤
      MAX_CONNECTIONS_AT_ONCE - s.current_connected_peers.length ∧
    (∀ p ∈ (get_potential_peers s).1,
      p ∈ s.potential_peers ∧ p ∉ s.current_connected_peers) ∧
    ((get_potential_peers s).2.potential_peers = [] ∨
      ((get_potential_peers s).2 = s ∧ (get_potential_peers s).1 = [])) ∧
    (∀ a ∈ (nodeLoopTurnConnects s).1,
      a.ask_for_peers = false ∧ a.make_room_for_new_connection = false) := by
  refine ⟨?_, ?_, ?_, ?_⟩
  · unfold get_potential_peers
    split_ifs with h1 h2
    · simp
    · simp
    · exact drainSelect_length_le _ _ _
  · unfold get_potential_peers
    split_ifs with h1 h2
    · simp
    · simp
    · intro p hp
      have := drainSelect_mem s.current_connected_peers s.potential_peers
        s.current_connected_peers.length p hp
      exact this
  · unfold get_potential_peers
    split_ifs with h1 h2
    · right; exact ⟨rfl, rfl⟩
    · right; exact ⟨rfl, rfl⟩
    · left; rfl
  · intro a ha
    unfold nodeLoopTurnConnects at ha
    simp only [List.mem_filterMap] at ha
    rcases ha with ⟨p, _, hif⟩
    split_ifs at hif
    cases hif
    exact ⟨rfl, rfl⟩

/-- Witness for C3 (amended): the bounds instantiated on a concrete state
with one connection and two potential peers. -/
theorem c3_peer_pump_witness :
    (get_potential_peers { current_connected_peers := [9], potential_peers := [3, 9] }).1.length ≤
      MAX_CONNECTIONS_AT_ONCE - 1 ∧
    ((get_potential_peers { current_connected_peers := [9], potential_peers := [3, 9] }).2.potential_peers = [] ∨
      ((get_potential_peers { current_connected_peers := [9], potential_peers := [3, 9] }).2 =
          { current_connected_peers := [9], potential_peers := [3, 9] } ∧
        (get_potential_peers { current_connected_peers := [9], potential_peers := [3, 9] }).1 = [])) :=
  ⟨(c3_peer_pump { current_connected_peers := [9], potential_peers := [3, 9] }).1,
   (c3_peer_pump { current_connected_peers := [9], potential_peers := [3, 9] }).2.2.1⟩

/-- Pointwise reformulation of the disjointness invariant. -/
theorem statusDisjoint_iff (s : StatusSets) :
    statusDisjoint s ↔
      ∀ q, q ∈ s.current_connected_peers → q ∉ s.peers_during_handshake := by
  unfold statusDisjoint
  constructor
  · intro h q h1 h2
    have hmem := Finset.mem_inter.mpr ⟨h1, h2⟩
    rw [h] at hmem
    exact absurd hmem (Finset.not_mem_empty q)
  · intro h
    apply Finset.eq_empty_iff_forall_not_mem.mpr
    intro q hq
    rcases Finset.mem_inter.mp hq with ⟨h1, h2⟩
    exact h q h1 h2

/-- C4, counterexample: the sequence a Connection task performs —
`peer_begins_handshake(p)` followed by `peer_handshaked_successfully(p)`
(connection.rs line 43 and line 152; the balancing
`remove_peer_from_handshake_set` only happens later, under a separate lock,
at line 49) — reaches a state in which address 0 is in `connected_peers`
and in `peers_in_handshake` at the same time. -/
theorem c4_overlap_counterexample :
    ¬ statusDisjoint
      (runStatusOps initialStatus [.begins 0, .success 0]) := by
  decide

/-- C4, amended: disjointness of the two peer sets is not an invariant of
the individual operations — `peer_handshaked_successfully` does not remove
the address from the handshake set, and `peer_begins_handshake` does not
check the connected set — but: the three removal operations preserve
disjointness; the pair `peer_handshaked_successfully(p)` immediately
followed by `remove_peer_from_handshake_set(p)` (the sequence
`Connection::run` performs when the stored address is not rewritten)
preserves it; `peer_begins_handshake(p)` preserves it when `p` is not
connected, and `peer_handshaked_successfully(p)` when `p` is not in the
handshake set. -/
theorem c4_disjointness (s : StatusSets) (p : Nat) (h : statusDisjoint s) :
    statusDisjoint (remove_peer_from_handshake_set s p) ∧
    statusDisjoint (remove_peer s p) ∧
    statusDisjoint
      (remove_peer_from_handshake_set (peer_handshaked_successfully s p) p) ∧
    (p ∉ s.current_connected_peers → statusDisjoint (peer_begins_handshake s p)) ∧
    (p ∉ s.peers_during_handshake → statusDisjoint (peer_handshaked_successfully s p)) := by
  rw [statusDisjoint_iff] at h
  refine ⟨?_, ?_, ?_, ?_, ?_⟩
  · rw [statusDisjoint_iff]
    intro q hq hq2
    exact h q hq (Finset.mem_of_mem_erase hq2)
  · rw [statusDisjoint_iff]
    intro q hq hq2
    exact h q (Finset.mem_of_mem_erase hq) (Finset.mem_of_mem_erase hq2)
  · rw [statusDisjoint_iff]
    intro q hq hq2
    rcases Finset.mem_erase.mp hq2 with ⟨hne, hq2'⟩
    rcases Finset.mem_insert.mp hq with rfl | hq'
    · exact hne rfl
    · exact h q hq' hq2'
  · intro hp
    rw [statusDisjoint_iff]
    intro q hq hq2
    rcases Finset.mem_insert.mp hq2 with rfl | hq2'
    · exact hp hq
    · exact h q hq hq2'
  · intro hp
    rw [statusDisjoint_iff]
    intro q hq hq2
    rcases Finset.mem_insert.mp hq with rfl | hq'
    · exact hp hq2
    · exact h q hq' hq2

/-- Witness for C4 (amended): the preservation conjuncts instantiated at
the empty status and address 0. -/
theorem c4_disjointness_witness :
    statusDisjoint (remove_peer_from_handshake_set initialStatus 0) ∧
    statusDisjoint (remove_peer initialStatus 0) ∧
    statusDisjoint
      (remove_peer_from_handshake_set (peer_handshaked_successfully initialStatus 0) 0) ∧
    ((0 : Nat) ∉ initialStatus.current_connected_peers →
      statusDisjoint (peer_begins_handshake initialStatus 0)) ∧
    ((0 : Nat) ∉ initialStatus.peers_during_handshake →
      statusDisjoint (peer_handshaked_successfully initialStatus 0)) :=
  c4_disjointness initialStatus 0 (by decide)

/-- C2: the claim says a failed admission (peer already connected, or the
connected set full with `make_room_for_new_connection = false`) sends
`ConnectionRejected` with the peers hint before shutting down.  In the
source (connection.rs line 157) the rejection branch builds the send future
but drops it without `.await`, so nothing is ever written to the wire: on
both failing inputs below — a full connected set with no room, and an
already-connected peer — the admission is rejected and the list of messages
actually sent is empty, with no `ConnectionRejected` in it. -/
theorem c2_rejection_reply_never_sent :
    (handshakeAdmission { current_connected_peers := [1, 2, 3, 4, 5] } 6 true false).accepted = false ∧
    (handshakeAdmission { current_connected_peers := [1, 2, 3, 4, 5] } 6 true false).wire_sent = [] ∧
    (handshakeAdmission { current_connected_peers := [1, 2] } 1 true false).accepted = false ∧
    (handshakeAdmission { current_connected_peers := [1, 2] } 1 true false).wire_sent = [] ∧
    (handshakeAdmission { current_connected_peers := [1, 2] } 6 true false).wire_sent =
      [.connectionAccepted [1, 2]] := by
  decide

/-- C5: how `append_chunks_to_file` treats one received `(index, bytes)`
pair whose index is in range of the manifest: an already-downloaded chunk
is skipped with no state change; a chunk whose hash does not match the
manifest is dropped silently with no state change; a matching chunk whose
manifest position is not `index * FILE_PIECE_SIZE` hits the `assert_eq!`
(the panic is `none`); and an accepted chunk is written (and flushed) at
position `index * FILE_PIECE_SIZE`, marked downloaded, removed from the
in-flight map and from every peer's offer set, and the completion
percentage is recomputed — both while the file stays incomplete (last
conjunct but one) and for the accepted chunk that completes the file (last
conjunct): that chunk receives the same updates, after which the completion
asserts hold, completion is pinned to 100, the status turns Idle and the
loop `break`s. -/
theorem c5_append_chunk_cases (hashFn : List Nat → List Nat) (total : Nat)
    (acc : AppendAcc) (idx : Nat) (data : List Nat) (cm : FileChunk)
    (hidx : acc.md.file_chunks.get? idx = some cm) :
    (cm.downloaded = true →
      processOneChunk hashFn total acc idx data = some (acc, false)) ∧
    (cm.downloaded = false → hashFn data ≠ cm.hash →
      processOneChunk hashFn total acc idx data = some (acc, false)) ∧
    (cm.downloaded = false → hashFn data = cm.hash →
      cm.position ≠ idx * FILE_PIECE_SIZE →
      processOneChunk hashFn total acc idx data = none) ∧
    (cm.downloaded = false → hashFn data = cm.hash →
      cm.position = idx * FILE_PIECE_SIZE →
      100 * (acc.md.chunks_downloaded + 1) / total < 100 →
      processOneChunk hashFn total acc idx data = some
        ({ acc with
             md := { acc.md with
                       file_chunks := markDownloaded acc.md.file_chunks idx,
                       chunks_downloaded := acc.md.chunks_downloaded + 1 },
             writes := acc.writes ++ [(idx * FILE_PIECE_SIZE, data)],
             chunks_requested :=
               acc.chunks_requested.filter (fun e => e.1 ≠ idx),
             peers_with_available_chunks :=
               acc.peers_with_available_chunks.map
                 (fun p => (p.1, p.2.filter (fun i => i ≠ idx))),
             file_completion := 100 * (acc.md.chunks_downloaded + 1) / total,
             appended := true,
             status := .peering }, false)) ∧
    (cm.downloaded = false → hashFn data = cm.hash →
      cm.position = idx * FILE_PIECE_SIZE →
      100 ≤ 100 * (acc.md.chunks_downloaded + 1) / total →
      acc.md.chunks_downloaded + 1 = total →
      (markDownloaded acc.md.file_chunks idx).all (·.downloaded) = true →
      processOneChunk hashFn total acc idx data = some
        ({ acc with
             md := { acc.md with
                       file_chunks := markDownloaded acc.md.file_chunks idx,
                       chunks_downloaded := acc.md.chunks_downloaded + 1 },
             writes := acc.writes ++ [(idx * FILE_PIECE_SIZE, data)],
             chunks_requested :=
               acc.chunks_requested.filter (fun e => e.1 ≠ idx),
             peers_with_available_chunks :=
               acc.peers_with_available_chunks.map
                 (fun p => (p.1, p.2.filter (fun i => i ≠ idx))),
             file_completion := 100,
             appended := true,
             status := .idle,
             finishedNow := true }, true)) := by
  refine ⟨?_, ?_, ?_, ?_, ?_⟩
  · intro hd
    unfold processOneChunk
    rw [hidx]
    dsimp only
    rw [if_pos hd]
  · intro hd hh
    unfold processOneChunk
    rw [hidx]
    dsimp only
    rw [if_neg (by simp [hd]), if_pos (by exact fun he => hh he.symm)]
  · intro hd hh hp
    unfold processOneChunk
    rw [hidx]
    dsimp only
    rw [if_neg (by simp [hd]), if_neg (by simp [hh]), if_pos hp]
  · intro hd hh hp hc
    unfold processOneChunk
    rw [hidx]
    dsimp only
    rw [if_neg (by simp [hd]), if_neg (by simp [hh]), if_neg (by simp [hp]),
      if_neg (by omega)]
    rw [hp]
  · intro hd hh hp hc hcd hall
    unfold processOneChunk
    rw [hidx]
    dsimp only
    rw [if_neg (by simp [hd]), if_neg (by simp [hh]), if_neg (by simp [hp]),
      if_pos (by omega), if_pos ⟨hcd, hall⟩]
    rw [hp]

/-- Witness for C5: on a two-chunk manifest the pair `(0, [9])` is accepted
mid-download and produces exactly the claimed state; on a one-chunk
manifest the same pair is the completing chunk — it receives the same
updates and additionally pins completion to 100, turns the status Idle and
`break`s the loop. -/
theorem c5_append_chunk_cases_witness :
    (processOneChunk (fun _ => [1]) 2
      { md := { file_chunks :=
                  [ { position := 0, hash := [1], downloaded := false },
                    { position := FILE_PIECE_SIZE, hash := [1], downloaded := false } ],
                file_hash := [], chunks_downloaded := 0 },
        chunks_requested := [(0, 0)],
        peers_with_available_chunks := [(5, [0, 1])],
        file_completion := 0, status := .idle, writes := [],
        appended := false, finishedNow := false } 0 [9] = some
      ({ md := { file_chunks :=
                   [ { position := 0, hash := [1], downloaded := true },
                     { position := FILE_PIECE_SIZE, hash := [1], downloaded := false } ],
                 file_hash := [], chunks_downloaded := 1 },
         chunks_requested := [],
         peers_with_available_chunks := [(5, [1])],
         file_completion := 50, status := .peering, writes := [(0, [9])],
         appended := true, finishedNow := false }, false)) ∧
    (processOneChunk (fun _ => [1]) 1
      { md := { file_chunks := [{ position := 0, hash := [1], downloaded := false }],
                file_hash := [], chunks_downloaded := 0 },
        chunks_requested := [(0, 0)],
        peers_with_available_chunks := [(5, [0])],
        file_completion := 0, status := .peering, writes := [],
        appended := false, finishedNow := false } 0 [9] = some
      ({ md := { file_chunks := [{ position := 0, hash := [1], downloaded := true }],
                 file_hash := [], chunks_downloaded := 1 },
         chunks_requested := [],
         peers_with_available_chunks := [(5, [])],
         file_completion := 100, status := .idle, writes := [(0, [9])],
         appended := true, finishedNow := true }, true)) := by
  constructor
  · have h := (c5_append_chunk_cases (fun _ => [1]) 2
      { md := { file_chunks :=
                  [ { position := 0, hash := [1], downloaded := false },
                    { position := FILE_PIECE_SIZE, hash := [1], downloaded := false } ],
                file_hash := [], chunks_downloaded := 0 },
        chunks_requested := [(0, 0)],
        peers_with_available_chunks := [(5, [0, 1])],
        file_completion := 0, status := .idle, writes := [],
        appended := false, finishedNow := false } 0 [9]
      { position := 0, hash := [1], downloaded := false } rfl).2.2.2.1
      rfl rfl (by decide) (by decide)
    rw [h]
    rfl
  · have h := (c5_append_chunk_cases (fun _ => [1]) 1
      { md := { file_chunks := [{ position := 0, hash := [1], downloaded := false }],
                file_hash := [], chunks_downloaded := 0 },
        chunks_requested := [(0, 0)],
        peers_with_available_chunks := [(5, [0])],
        file_completion := 0, status := .peering, writes := [],
        appended := false, finishedNow := false } 0 [9]
      { position := 0, hash := [1], downloaded := false } rfl).2.2.2.2
      rfl rfl (by decide) (by decide) (by decide) (by decide)
    rw [h]
    rfl

/-- C8, counterexample: the claim says every run of `check_directory` fires
one `AskForFiles`; with five shared files (the `MAX_FILES_TO_SHARE_AT_ONCE`
cap) whose backing files all exist and a directory listing matching them,
the run fires none. -/
theorem c8_askforfiles_counterexample :
    (check_directory
        [ ("a", { file_exists := true, status_elapsed := 0, status := .idle }),
          ("b", { file_exists := true, status_elapsed := 0, status := .idle }),
          ("c", { file_exists := true, status_elapsed := 0, status := .idle }),
          ("d", { file_exists := true, status_elapsed := 0, status := .idle }),
          ("e", { file_exists := true, status_elapsed := 0, status := .idle }) ]
        [ { name := "a", is_file := true, size := 1 },
          { name := "b", is_file := true, size := 1 },
          { name := "c", is_file := true, size := 1 },
          { name := "d", is_file := true, size := 1 },
          { name := "e", is_file := true, size := 1 } ]).2 = false := by
  decide

/-- C8, amended: a run of `check_directory` fires exactly one `AskForFiles`
when the resulting file map has fewer than `MAX_FILES_TO_SHARE_AT_ONCE`
entries, and none otherwise. -/
theorem c8_askforfiles_iff (files : List (String × ScanFile))
    (entries : List DirEntry) :
    (check_directory files entries).2 = true ↔
      (check_directory files entries).1.length < MAX_FILES_TO_SHARE_AT_ONCE := by
  unfold check_directory
  simp only [List.length_map, decide_eq_true_eq]

/-- Witness for C8 (amended): instantiated at the empty state. -/
theorem c8_askforfiles_iff_witness :
    (check_directory [] []).2 = true ↔
      (check_directory [] []).1.length < MAX_FILES_TO_SHARE_AT_ONCE :=
  c8_askforfiles_iff [] []

/-- C9: in `get_file_chunks` the u64 subtraction
`file_size - chunk_position` (evaluated whenever
`file_size < chunk_position + FILE_PIECE_SIZE`) underflows for no requested
pair exactly when every requested position is at most `file_size`; when it
does not underflow the allocated buffer length is the true difference; and
the manager's `RequestFileChunks` handler passes the peer-supplied chunk
list to `get_file_chunks` unmodified, without checking that precondition. -/
theorem c9_buffer_underflow (file_size : Nat) (h64 : file_size < 2 ^ 64)
    (requested : List (Nat × Nat)) :
    ((∀ p ∈ requested, ¬ subtractionUnderflows file_size p.2) ↔
      (∀ p ∈ requested, p.2 ≤ file_size)) ∧
    (∀ p ∈ requested, p.2 ≤ file_size → file_size < p.2 + FILE_PIECE_SIZE →
      chunkBufLen file_size p.2 = file_size - p.2) ∧
    (∀ (files : List (List Nat × (List Nat × Nat))) (peer : Nat)
        (name : List Nat) (f : List Nat × (List Nat × Nat)),
      files.find? (fun g => g.1 = name) = some f →
      manager_handle_request_file_chunks files peer name requested =
        (if (get_file_chunks f.2.1 f.2.2 requested).isEmpty then none
         else some (peer, name, get_file_chunks f.2.1 f.2.2 requested))) := by
  refine ⟨⟨?_, ?_⟩, ?_, ?_⟩
  · intro h p hp
    by_contra hgt
    push_neg at hgt
    exact h p hp ⟨by omega, hgt⟩
  · intro h p hp hu
    have hle := h p hp
    unfold subtractionUnderflows at hu
    omega
  · intro p _ hle hbr
    unfold chunkBufLen
    rw [if_pos hbr]
    have hrw : file_size + 2 ^ 64 - p.2 = (file_size - p.2) + 2 ^ 64 := by omega
    rw [hrw, Nat.add_mod_right, Nat.mod_eq_of_lt (by omega)]
  · intro files peer name f hfind
    unfold manager_handle_request_file_chunks
    rw [hfind]

/-- Witness for C9: the underflow criterion instantiated at a 5-byte file
with one requested chunk at position 3. -/
theorem c9_buffer_underflow_witness :
    (∀ p ∈ [((0 : Nat), (3 : Nat))], ¬ subtractionUnderflows 5 p.2) ↔
      (∀ p ∈ [((0 : Nat), (3 : Nat))], p.2 ≤ 5) :=
  (c9_buffer_underflow 5 (by norm_num) [(0, 3)]).1

/-- Every chunk the background hashing task emits carries
`downloaded: true`. -/
theorem genChunksGo_downloaded (hashFn : List Nat → List Nat)
    (bytes : List Nat) (pos : Nat) :
    ∀ c ∈ genChunksGo hashFn bytes pos, c.downloaded = true := by
  have main : ∀ n (bytes : List Nat), bytes.length ≤ n → ∀ pos,
      ∀ c ∈ genChunksGo hashFn bytes pos, c.downloaded = true := by
    intro n
    induction n with
    | zero =>
      intro bytes hb pos c hc
      have hnil : bytes = [] := List.eq_nil_of_length_eq_zero (Nat.le_zero.mp hb)
      subst hnil
      rw [genChunksGo] at hc
      simp at hc
    | succ k ih =>
      intro bytes hb pos c hc
      by_cases hnil : bytes = []
      · subst hnil
        rw [genChunksGo] at hc
        simp at hc
      · rw [genChunksGo, dif_neg hnil] at hc
        rcases List.mem_cons.mp hc with rfl | hc'
        · rfl
        · refine ih (bytes.drop FILE_PIECE_SIZE) ?_ _ c hc'
          have hpos : 0 < bytes.length := List.length_pos.mpr hnil
          simp only [List.length_drop, FILE_PIECE_SIZE]
          omega
  exact main bytes.length bytes le_rfl pos

/-- On a chunk list with every `downloaded` flag set, the
`insert_download_metadata` loop collects every index and clears every
flag. -/
theorem splitDownloadFlags_all_set (chunks : List FileChunk)
    (h : ∀ c ∈ chunks, c.downloaded = true) :
    ∀ i, splitDownloadFlags chunks i =
      (List.range' i chunks.length,
       chunks.map (fun c => { c with downloaded := false })) := by
  induction chunks with
  | nil =>
    intro i
    simp [splitDownloadFlags, List.range']
  | cons c rest ih =>
    intro i
    have hc : c.downloaded = true := h c (List.mem_cons_self _ _)
    have hrest := ih (fun x hx => h x (List.mem_cons_of_mem _ hx)) (i + 1)
    simp only [splitDownloadFlags, hrest, hc, if_pos, List.length_cons,
      List.range'_succ, List.map_cons]

/-- C10: the manifest the background task of `generate_metadata_for_share`
produces has every chunk marked downloaded and `chunks_downloaded = 0`; a
receiver installing it with `insert_download_metadata` (on an empty
placeholder) records the sending peer as holding every chunk index, resets
every `downloaded` flag to `false`, and keeps `chunks_downloaded = 0`. -/
theorem c10_generated_metadata_roundtrip
    (hashFn fileHashFn : List Nat → List Nat) (bytes : List Nat)
    (s : PlaceholderFile) (peer : Nat) (file_size : Nat)
    (hmd : s.download_metadata = none) (hsz : s.file_size = 0) :
    (∀ c ∈ (generate_metadata_task hashFn fileHashFn bytes).file_chunks,
      c.downloaded = true) ∧
    (generate_metadata_task hashFn fileHashFn bytes).chunks_downloaded = 0 ∧
    insert_download_metadata s peer file_size
        (generate_metadata_task hashFn fileHashFn bytes) = some
      { file_size := file_size,
        download_metadata := some
          { file_chunks :=
              (generate_metadata_task hashFn fileHashFn bytes).file_chunks.map
                (fun c => { c with downloaded := false }),
            file_hash := fileHashFn bytes,
            chunks_downloaded := 0 },
        peers_with_available_chunks :=
          s.peers_with_available_chunks ++
            [(peer,
              List.range
                (generate_metadata_task hashFn fileHashFn bytes).file_chunks.length)] } := by
  have hall : ∀ c ∈ (generate_metadata_task hashFn fileHashFn bytes).file_chunks,
      c.downloaded = true := genChunksGo_downloaded hashFn bytes 0
  refine ⟨hall, rfl, ?_⟩
  unfold insert_download_metadata
  rw [hmd]
  simp only [Option.isSome_none, Bool.false_eq_true, if_false, hsz,
    if_neg (by omega : ¬ (0 : Nat) ≠ 0)]
  rw [splitDownloadFlags_all_set _ hall 0, ← List.range_eq_range']
  rfl

/-- Witness for C10: a one-byte file shared and re-installed at a concrete
placeholder. -/
theorem c10_generated_metadata_roundtrip_witness :
    insert_download_metadata
        { file_size := 0, download_metadata := none,
          peers_with_available_chunks := [] } 3 1
        (generate_metadata_task (fun _ => [2]) (fun _ => [2]) [1]) = some
      { file_size := 1,
        download_metadata := some
          { file_chunks := [{ position := 0, hash := [2], downloaded := false }],
            file_hash := [2], chunks_downloaded := 0 },
        peers_with_available_chunks := [(3, [0])] } := by
  have hgen : generate_metadata_task (fun _ => [2]) (fun _ => [2]) [1] =
      { file_chunks := [{ position := 0, hash := [2], downloaded := true }],
        file_hash := [2], chunks_downloaded := 0 } := by
    unfold generate_metadata_task
    rw [genChunksGo, dif_neg (by simp)]
    rw [List.take_of_length_le (by norm_num [FILE_PIECE_SIZE]),
      List.drop_eq_nil_of_le (by norm_num [FILE_PIECE_SIZE])]
    rw [genChunksGo, dif_pos rfl]
  have h := (c10_generated_metadata_roundtrip (fun _ => [2]) (fun _ => [2]) [1]
    { file_size := 0, download_metadata := none,
      peers_with_available_chunks := [] } 3 1 rfl rfl).2.2
  rw [h, hgen]
  rfl

/-! ### Codec roundtrip lemmas -/

/-- Little-endian bytes decode back. -/
theorem leRead_leBytes (k : Nat) : ∀ (n : Nat), n < 256 ^ k → ∀ (r : List Nat),
    leRead k (leBytes k n ++ r) = some (n, r) := by
  induction k with
  | zero =>
    intro n hn r
    have : n = 0 := by simpa using Nat.lt_one_iff.mp (by simpa using hn)
    subst this
    rfl
  | succ k ih =>
    intro n hn r
    have hdiv : n / 256 < 256 ^ k := by
      apply Nat.div_lt_of_lt_mul
      have hpow : 256 * 256 ^ k = 256 ^ (k + 1) := by ring
      rw [hpow]
      exact hn
    have harg : leBytes (k + 1) n ++ r = n % 256 :: (leBytes k (n / 256) ++ r) := by
      simp [leBytes]
    rw [harg]
    have hrec := ih (n / 256) hdiv r
    simp only [leRead, hrec]
    have hsum : n % 256 + 256 * (n / 256) = n := by omega
    rw [hsum]

/-- Varint roundtrip for values up to u64. -/
theorem decVarint_encVarint (n : Nat) (hn : n < 2 ^ 64) (r : List Nat) :
    decVarint (encVarint n ++ r) = some (n, r) := by
  unfold encVarint
  split_ifs with h1 h2 h3
  · simp [decVarint, h1]
  · simp only [List.cons_append, decVarint]
    norm_num
    exact leRead_leBytes 2 n (by norm_num; omega) r
  · simp only [List.cons_append, decVarint]
    norm_num
    exact leRead_leBytes 4 n (by norm_num; omega) r
  · simp only [List.cons_append, decVarint]
    norm_num
    exact leRead_leBytes 8 n (by norm_num; omega) r

/-- Bool roundtrip. -/
theorem decBool_encBool (b : Bool) (r : List Nat) :
    decBool (encBool b ++ r) = some (b, r) := by
  cases b <;> rfl

/-- Length-prefixed byte-string roundtrip. -/
theorem decBytes_encBytes (bs : List Nat) (h : bs.length < 2 ^ 64)
    (r : List Nat) : decBytes (encBytes bs ++ r) = some (bs, r) := by
  unfold encBytes decBytes
  rw [List.append_assoc, decVarint_encVarint bs.length h]
  simp only [List.length_append, Nat.le_add_right, if_pos, List.take_left,
    List.drop_left]

/-- Counted-sequence roundtrip. -/
theorem decCount_encSeq {α : Type} (dec : List Nat → Option (α × List Nat))
    (enc : α → List Nat) (xs : List α)
    (H : ∀ x ∈ xs, ∀ r', dec (enc x ++ r') = some (x, r')) (r : List Nat) :
    decCount dec xs.length (encSeq enc xs ++ r) = some (xs, r) := by
  induction xs generalizing r with
  | nil => rfl
  | cons x rest ih =>
    simp only [List.length_cons, encSeq, List.append_assoc, decCount]
    rw [H x (List.mem_cons_self _ _)]
    dsimp only
    rw [ih (fun y hy => H y (List.mem_cons_of_mem _ hy)) r]

/-- Length-prefixed collection roundtrip. -/
theorem decListWith_encListWith {α : Type}
    (dec : List Nat → Option (α × List Nat)) (enc : α → List Nat)
    (xs : List α) (hlen : xs.length < 2 ^ 64)
    (H : ∀ x ∈ xs, ∀ r', dec (enc x ++ r') = some (x, r')) (r : List Nat) :
    decListWith dec (encListWith enc xs ++ r) = some (xs, r) := by
  unfold encListWith decListWith
  rw [List.append_assoc, decVarint_encVarint xs.length hlen]
  exact decCount_encSeq dec enc xs H r

/-- Option roundtrip. -/
theorem decOptionWith_encOptionWith {α : Type}
    (dec : List Nat → Option (α × List Nat)) (enc : α → List Nat)
    (x : Option α) (H : ∀ y ∈ x, ∀ r', dec (enc y ++ r') = some (y, r'))
    (r : List Nat) :
    decOptionWith dec (encOptionWith enc x ++ r) = some (x, r) := by
  cases x with
  | none => rfl
  | some y =>
    simp only [encOptionWith, List.cons_append, decOptionWith]
    rw [H y rfl]

/-- Socket-address roundtrip. -/
theorem decSockAddr_encSockAddr (a : SockAddrM) (h : wfSock a)
    (r : List Nat) : decSockAddr (encSockAddr a ++ r) = some (a, r) := by
  cases a with
  | mk ip port =>
    rcases h with ⟨hip, hport⟩
    have hport64 : port < 2 ^ 64 := lt_trans hport (by norm_num)
    have h0 : encVarint 0 = [0] := rfl
    have h1 : encVarint 1 = [1] := rfl
    have hdec0 : ∀ l, decVarint (0 :: l) = some (0, l) := fun _ => rfl
    have hdec1 : ∀ l, decVarint (1 :: l) = some (1, l) := fun _ => rfl
    cases ip with
    | v4 x y z w =>
      have harg : encSockAddr { ip := .v4 x y z w, port := port } ++ r =
          0 :: x :: y :: z :: w :: (encVarint port ++ r) := by
        simp [encSockAddr, h0]
      rw [harg]
      unfold decSockAddr
      rw [hdec0]
      dsimp only
      rw [decVarint_encVarint port hport64 r]
    | v6 oct =>
      have hlen : oct.length = 16 := hip
      have harg : encSockAddr { ip := .v6 oct, port := port } ++ r =
          1 :: (oct ++ (encVarint port ++ r)) := by
        simp [encSockAddr, h1]
      rw [harg]
      unfold decSockAddr
      rw [hdec1]
      dsimp only
      have h16 : 16 ≤ (oct ++ (encVarint port ++ r)).length := by
        simp [hlen]
      rw [if_pos h16, ← hlen, List.take_left, List.drop_left,
        decVarint_encVarint port hport64 r]

/-- File-chunk roundtrip. -/
theorem decFileChunk_encFileChunk (c : FileChunk) (h : wfChunk c)
    (r : List Nat) : decFileChunk (encFileChunk c ++ r) = some (c, r) := by
  rcases h with ⟨hpos, hhash⟩
  unfold encFileChunk decFileChunk
  rw [List.append_assoc, List.append_assoc, decVarint_encVarint c.position hpos]
  dsimp only
  have h32 : 32 ≤ (c.hash ++ (encBool c.downloaded ++ r)).length := by
    simp [hhash]
  rw [if_pos h32, ← hhash, List.drop_left, List.take_left,
    decBool_encBool c.downloaded r]

/-- Manifest roundtrip. -/
theorem decMetadata_encMetadata (m : DownloadMetadata) (h : wfMetadata m)
    (r : List Nat) : decMetadata (encMetadata m ++ r) = some (m, r) := by
  rcases h with ⟨hlen, hchunks, hhash, hcount⟩
  unfold encMetadata decMetadata
  rw [List.append_assoc, List.append_assoc,
    decListWith_encListWith decFileChunk encFileChunk m.file_chunks hlen
      (fun c hc r' => decFileChunk_encFileChunk c (hchunks c hc) r')]
  dsimp only
  have h32 : 32 ≤ (m.file_hash ++ (encVarint m.chunks_downloaded ++ r)).length := by
    simp [hhash]
  rw [if_pos h32, ← hhash, List.drop_left, List.take_left,
    decVarint_encVarint m.chunks_downloaded hcount]

/-- `(usize, u64)` pair roundtrip. -/
theorem decIdxPos_encIdxPos (p : Nat × Nat) (h1 : p.1 < 2 ^ 64)
    (h2 : p.2 < 2 ^ 64) (r : List Nat) :
    decIdxPos (encIdxPos p ++ r) = some (p, r) := by
  unfold encIdxPos decIdxPos
  rw [List.append_assoc, decVarint_encVarint p.1 h1]
  dsimp only
  rw [decVarint_encVarint p.2 h2]

/-- `(usize, Vec<u8>)` pair roundtrip. -/
theorem decIdxBytes_encIdxBytes (p : Nat × List Nat) (h1 : p.1 < 2 ^ 64)
    (h2 : p.2.length < 2 ^ 64) (r : List Nat) :
    decIdxBytes (encIdxBytes p ++ r) = some (p, r) := by
  unfold encIdxBytes decIdxBytes
  rw [List.append_assoc, decVarint_encVarint p.1 h1]
  dsimp only
  rw [decBytes_encBytes p.2 h2]

/-- Full `NetworkMessage` codec roundtrip: decoding an encoding returns the
original message and the unread remainder. -/
theorem decNetMsg_encNetMsg (m : NetMsg) (h : wfMsg m) (r : List Nat) :
    decNetMsg (encNetMsg m ++ r) = some (m, r) := by
  cases m with
  | hello a ask =>
    have harg : encNetMsg (.hello a ask) ++ r =
        0 :: (encSockAddr a ++ (encBool ask ++ r)) := by
      simp [encNetMsg, show encVarint 0 = [0] from rfl, List.append_assoc]
    rw [harg]
    show (match decSockAddr (encSockAddr a ++ (encBool ask ++ r)) with
          | none => none
          | some (a', r1) =>
            match decBool r1 with
            | none => none
            | some (b, r2) => some (NetMsg.hello a' b, r2)) =
        some (NetMsg.hello a ask, r)
    rw [decSockAddr_encSockAddr a h]
    dsimp only
    rw [decBool_encBool ask r]
  | connectionAccepted ps =>
    obtain ⟨hlen, hps⟩ := h
    have harg : encNetMsg (.connectionAccepted ps) ++ r =
        1 :: (encListWith encSockAddr ps ++ r) := by
      simp [encNetMsg, show encVarint 1 = [1] from rfl, List.append_assoc]
    rw [harg]
    show (match decListWith decSockAddr (encListWith encSockAddr ps ++ r) with
          | none => none
          | some (ps', r1) => some (NetMsg.connectionAccepted ps', r1)) =
        some (NetMsg.connectionAccepted ps, r)
    rw [decListWith_encListWith decSockAddr encSockAddr ps hlen
      (fun p hp r' => decSockAddr_encSockAddr p (hps p hp) r')]
  | connectionRejected ps =>
    obtain ⟨hlen, hps⟩ := h
    have harg : encNetMsg (.connectionRejected ps) ++ r =
        2 :: (encListWith encSockAddr ps ++ r) := by
      simp [encNetMsg, show encVarint 2 = [2] from rfl, List.append_assoc]
    rw [harg]
    show (match decListWith decSockAddr (encListWith encSockAddr ps ++ r) with
          | none => none
          | some (ps', r1) => some (NetMsg.connectionRejected ps', r1)) =
        some (NetMsg.connectionRejected ps, r)
    rw [decListWith_encListWith decSockAddr encSockAddr ps hlen
      (fun p hp r' => decSockAddr_encSockAddr p (hps p hp) r')]
  | newPeer p tried informed =>
    obtain ⟨hp, ⟨hlen1, ht⟩, ⟨hlen2, hi⟩⟩ := h
    have harg : encNetMsg (.newPeer p tried informed) ++ r =
        3 :: (encSockAddr p ++ (encListWith encSockAddr tried ++
          (encListWith encSockAddr informed ++ r))) := by
      simp [encNetMsg, show encVarint 3 = [3] from rfl, List.append_assoc]
    rw [harg]
    show (match decSockAddr (encSockAddr p ++ (encListWith encSockAddr tried ++
            (encListWith encSockAddr informed ++ r))) with
          | none => none
          | some (p', r1) =>
            match decListWith decSockAddr r1 with
            | none => none
            | some (tried', r2) =>
              match decListWith decSockAddr r2 with
              | none => none
              | some (informed', r3) => some (NetMsg.newPeer p' tried' informed', r3)) =
        some (NetMsg.newPeer p tried informed, r)
    rw [decSockAddr_encSockAddr p hp]
    dsimp only
    rw [decListWith_encListWith decSockAddr encSockAddr tried hlen1
      (fun q hq r' => decSockAddr_encSockAddr q (ht q hq) r')]
    dsimp only
    rw [decListWith_encListWith decSockAddr encSockAddr informed hlen2
      (fun q hq r' => decSockAddr_encSockAddr q (hi q hq) r')]
  | imAlive =>
    have harg : encNetMsg .imAlive ++ r = 4 :: r := by
      simp [encNetMsg, show encVarint 4 = [4] from rfl]
    rw [harg]
    rfl
  | listPeers ps =>
    obtain ⟨hlen, hps⟩ := h
    have harg : encNetMsg (.listPeers ps) ++ r =
        5 :: (encListWith encSockAddr ps ++ r) := by
      simp [encNetMsg, show encVarint 5 = [5] from rfl, List.append_assoc]
    rw [harg]
    show (match decListWith decSockAddr (encListWith encSockAddr ps ++ r) with
          | none => none
          | some (ps', r1) => some (NetMsg.listPeers ps', r1)) =
        some (NetMsg.listPeers ps, r)
    rw [decListWith_encListWith decSockAddr encSockAddr ps hlen
      (fun p hp r' => decSockAddr_encSockAddr p (hps p hp) r')]
  | listFiles sender files =>
    obtain ⟨hs, hfiles⟩ := h
    have harg : encNetMsg (.listFiles sender files) ++ r =
        6 :: (encSockAddr sender ++
          (encOptionWith (encListWith encBytes) files ++ r)) := by
      simp [encNetMsg, show encVarint 6 = [6] from rfl, List.append_assoc]
    rw [harg]
    show (match decSockAddr (encSockAddr sender ++
            (encOptionWith (encListWith encBytes) files ++ r)) with
          | none => none
          | some (a, r1) =>
            match decOptionWith (decListWith decBytes) r1 with
            | none => none
            | some (files', r2) => some (NetMsg.listFiles a files', r2)) =
        some (NetMsg.listFiles sender files, r)
    rw [decSockAddr_encSockAddr sender hs]
    dsimp only
    rw [decOptionWith_encOptionWith (decListWith decBytes)
      (encListWith encBytes) files
      (fun fs hfs r' =>
        decListWith_encListWith decBytes encBytes fs (hfiles fs hfs).1
          (fun f hf r'' => decBytes_encBytes f ((hfiles fs hfs).2 f hf) r'') r')]
  | askForFile name peer =>
    obtain ⟨hname, hpeer⟩ := h
    have harg : encNetMsg (.askForFile name peer) ++ r =
        7 :: (encBytes name ++ (encSockAddr peer ++ r)) := by
      simp [encNetMsg, show encVarint 7 = [7] from rfl, List.append_assoc]
    rw [harg]
    show (match decBytes (encBytes name ++ (encSockAddr peer ++ r)) with
          | none => none
          | some (name', r1) =>
            match decSockAddr r1 with
            | none => none
            | some (p, r2) => some (NetMsg.askForFile name' p, r2)) =
        some (NetMsg.askForFile name peer, r)
    rw [decBytes_encBytes name hname]
    dsimp only
    rw [decSockAddr_encSockAddr peer hpeer]
  | sendMetadata name peer size md =>
    obtain ⟨hname, hpeer, hsize, hmd⟩ := h
    have harg : encNetMsg (.sendMetadata name peer size md) ++ r =
        8 :: (encBytes name ++ (encSockAddr peer ++
          (encVarint size ++ (encMetadata md ++ r)))) := by
      simp [encNetMsg, show encVarint 8 = [8] from rfl, List.append_assoc]
    rw [harg]
    show (match decBytes (encBytes name ++ (encSockAddr peer ++
            (encVarint size ++ (encMetadata md ++ r)))) with
          | none => none
          | some (name', r1) =>
            match decSockAddr r1 with
            | none => none
            | some (p, r2) =>
              match decVarint r2 with
              | none => none
              | some (size', r3) =>
                match decMetadata r3 with
                | none => none
                | some (md', r4) => some (NetMsg.sendMetadata name' p size' md', r4)) =
        some (NetMsg.sendMetadata name peer size md, r)
    rw [decBytes_encBytes name hname]
    dsimp only
    rw [decSockAddr_encSockAddr peer hpeer]
    dsimp only
    rw [decVarint_encVarint size hsize]
    dsimp only
    rw [decMetadata_encMetadata md hmd]
  | requestFileChunks peer name chunks =>
    obtain ⟨hpeer, hname, hlen, hcs⟩ := h
    have harg : encNetMsg (.requestFileChunks peer name chunks) ++ r =
        9 :: (encSockAddr peer ++ (encBytes name ++
          (encListWith encIdxPos chunks ++ r))) := by
      simp [encNetMsg, show encVarint 9 = [9] from rfl, List.append_assoc]
    rw [harg]
    show (match decSockAddr (encSockAddr peer ++ (encBytes name ++
            (encListWith encIdxPos chunks ++ r))) with
          | none => none
          | some (p, r1) =>
            match decBytes r1 with
            | none => none
            | some (name', r2) =>
              match decListWith decIdxPos r2 with
              | none => none
              | some (chunks', r3) =>
                some (NetMsg.requestFileChunks p name' chunks', r3)) =
        some (NetMsg.requestFileChunks peer name chunks, r)
    rw [decSockAddr_encSockAddr peer hpeer]
    dsimp only
    rw [decBytes_encBytes name hname]
    dsimp only
    rw [decListWith_encListWith decIdxPos encIdxPos chunks hlen
      (fun c hc r' => decIdxPos_encIdxPos c (hcs c hc).1 (hcs c hc).2 r')]
  | sendFileChunks name chunks =>
    obtain ⟨hname, hlen, hcs⟩ := h
    have harg : encNetMsg (.sendFileChunks name chunks) ++ r =
        10 :: (encBytes name ++ (encListWith encIdxBytes chunks ++ r)) := by
      simp [encNetMsg, show encVarint 10 = [10] from rfl, List.append_assoc]
    rw [harg]
    show (match decBytes (encBytes name ++
            (encListWith encIdxBytes chunks ++ r)) with
          | none => none
          | some (name', r1) =>
            match decListWith decIdxBytes r1 with
            | none => none
            | some (chunks', r2) => some (NetMsg.sendFileChunks name' chunks', r2)) =
        some (NetMsg.sendFileChunks name chunks, r)
    rw [decBytes_encBytes name hname]
    dsimp only
    rw [decListWith_encListWith decIdxBytes encIdxBytes chunks hlen
      (fun c hc r' => decIdxBytes_encIdxBytes c (hcs c hc).1 (hcs c hc).2 r')]

/-- Parsing the 4-byte big-endian prefix recovers a value below `2 ^ 32`. -/
theorem be32_value (n : Nat) (h : n < 2 ^ 32) :
    ((n / 2 ^ 24 % 256 * 256 + n / 2 ^ 16 % 256) * 256 + n / 2 ^ 8 % 256) * 256
      + n % 256 = n := by
  omega

/-- C7, amended: for every well-formed `NetworkMessage` whose bincode
encoding is shorter than `2 ^ 32` bytes (so the `as u32` cast of the length
in `send_message` does not truncate), framing with the 4-byte big-endian
length prefix and then decoding the framed bytes yields the original
message, consuming the whole frame. -/
theorem c7_framed_roundtrip (m : NetMsg) (hwf : wfMsg m)
    (hlen : (encNetMsg m).length < 2 ^ 32) :
    read_message (send_message m) = some (m, []) := by
  have hdec := decNetMsg_encNetMsg m hwf []
  rw [List.append_nil] at hdec
  unfold send_message
  rw [Nat.mod_eq_of_lt hlen]
  show read_message
      ((encNetMsg m).length / 2 ^ 24 % 256 ::
        (encNetMsg m).length / 2 ^ 16 % 256 ::
        (encNetMsg m).length / 2 ^ 8 % 256 ::
        (encNetMsg m).length % 256 :: encNetMsg m) = some (m, [])
  show (if ((((encNetMsg m).length / 2 ^ 24 % 256) * 256 +
            (encNetMsg m).length / 2 ^ 16 % 256) * 256 +
            (encNetMsg m).length / 2 ^ 8 % 256) * 256 +
            (encNetMsg m).length % 256 ≤ (encNetMsg m).length then
          match decNetMsg ((encNetMsg m).take
              (((((encNetMsg m).length / 2 ^ 24 % 256) * 256 +
                (encNetMsg m).length / 2 ^ 16 % 256) * 256 +
                (encNetMsg m).length / 2 ^ 8 % 256) * 256 +
                (encNetMsg m).length % 256)) with
          | some r => some (r.1, (encNetMsg m).drop
              (((((encNetMsg m).length / 2 ^ 24 % 256) * 256 +
                (encNetMsg m).length / 2 ^ 16 % 256) * 256 +
                (encNetMsg m).length / 2 ^ 8 % 256) * 256 +
                (encNetMsg m).length % 256))
          | none => none
        else none) = some (m, [])
  rw [be32_value _ hlen, if_pos (le_refl _), List.take_length, hdec]
  dsimp only
  rw [List.drop_length]

/-- Witness for C7 (amended): the keepalive message framed and decoded. -/
theorem c7_framed_roundtrip_witness :
    read_message (send_message .imAlive) = some (.imAlive, []) :=
  c7_framed_roundtrip .imAlive trivial (by decide)

/-- `read_message` on a stream with at least four bytes, unfolded. -/
theorem read_message_cons (b0 b1 b2 b3 : Nat) (rest : List Nat) :
    read_message (b0 :: b1 :: b2 :: b3 :: rest) =
      (if ((b0 * 256 + b1) * 256 + b2) * 256 + b3 ≤ rest.length then
        match decNetMsg (rest.take (((b0 * 256 + b1) * 256 + b2) * 256 + b3)) with
        | some r => some (r.1, rest.drop (((b0 * 256 + b1) * 256 + b2) * 256 + b3))
        | none => none
      else none) := rfl

set_option maxRecDepth 4000 in
/-- C7, counterexample: the claim quantifies over every value of the
`NetworkMessage` type, but for `msgC7` — a `SendFileChunks` carrying one
`2 ^ 32`-byte chunk, so its encoding is `13 + 2 ^ 32` bytes long — the
`encoded_message.len() as u32` cast in `send_message` truncates the length
prefix to 13, and decoding the framed bytes fails instead of returning the
original message. -/
theorem c7_truncated_frame : read_message (send_message msgC7) = none := by
  have e2 : encIdxBytes (0, List.replicate (2 ^ 32) (0 : Nat)) =
      0 :: 253 :: 0 :: 0 :: 0 :: 0 :: 1 :: 0 :: 0 :: 0 ::
        List.replicate (2 ^ 32) 0 := by
    show encVarint 0 ++
        (encVarint (List.replicate (2 ^ 32) (0 : Nat)).length ++
          List.replicate (2 ^ 32) 0) = _
    rw [List.length_replicate, show encVarint 0 = [0] from rfl,
      show encVarint (2 ^ 32) = [253, 0, 0, 0, 0, 1, 0, 0, 0] from by decide]
    rfl
  have henc : encNetMsg msgC7 = c7hdr ++ List.replicate (2 ^ 32) 0 := by
    show encVarint 10 ++ encBytes [] ++
        encListWith encIdxBytes [(0, List.replicate (2 ^ 32) 0)] = _
    rw [show encListWith encIdxBytes [((0 : Nat), List.replicate (2 ^ 32) (0 : Nat))] =
        [1] ++ (encIdxBytes (0, List.replicate (2 ^ 32) 0) ++ []) from rfl]
    rw [e2, List.append_nil]
    rfl
  have hlen : (encNetMsg msgC7).length = 13 + 2 ^ 32 := by
    rw [henc, List.length_append, List.length_replicate,
      show c7hdr.length = 13 from rfl]
  have hframe : send_message msgC7 =
      0 :: 0 :: 0 :: 13 :: (c7hdr ++ List.replicate (2 ^ 32) 0) := by
    unfold send_message
    rw [hlen, henc, show (13 + 2 ^ 32) % 2 ^ 32 = 13 from by decide,
      show be32 13 = [0, 0, 0, 13] from by decide]
    rfl
  have h13 : ((0 * 256 + 0) * 256 + 0) * 256 + 13 = 13 := by norm_num
  rw [hframe, read_message_cons, h13]
  have hlen2 : (c7hdr ++ List.replicate (2 ^ 32) (0 : Nat)).length =
      13 + 2 ^ 32 := by
    rw [List.length_append, List.length_replicate,
      show c7hdr.length = 13 from rfl]
  rw [if_pos (by rw [hlen2]; omega)]
  rw [show (13 : Nat) = c7hdr.length from by decide, List.take_left,
    show decNetMsg c7hdr = none from by decide]

end P2PCore
